import Mathlib

/-!
Verification of the reto NDN forwarder against its specification.

This file shallowly embeds the relevant Rust source of the repository:

* src/src/tlv.rs        : varint codec, TLV codec, typed u64 values
* src/src/name.rs       : names, name components, the component iterator
* src/src/packet.rs     : Interest packet decoding and re-encoding
* src/src/tables/reference.rs : reference tables (trie, PIT, FIB, dead nonce list)
* src/src/tables.rs and src/src/forwarder.rs : the flat tables and handle_interest

Bytes are modelled as natural numbers below 256 in lists; machine integers
are natural numbers with explicit wrap-around (mod 2 ^ w) where the source
performs wrapping arithmetic, and with saturation where the source saturates.
Rust panics (index out of range, failing unwrap, copy_from_slice length
mismatch) are modelled by returning none from an Option-valued function.
-/

namespace Reto

/-- u64::MAX, the saturation bound of Timestamp arithmetic. -/
def U64MAX : Nat := 18446744073709551615

/-- u16::from_be_bytes. -/
def u16FromBe (b1 b2 : Nat) : Nat := b1 * 256 + b2

/-- u32::from_be_bytes. -/
def u32FromBe (b1 b2 b3 b4 : Nat) : Nat := ((b1 * 256 + b2) * 256 + b3) * 256 + b4

/-- u64::from_be_bytes over a list of (up to eight) bytes. -/
def u64FromBeList (bs : List Nat) : Nat := bs.foldl (fun a b => a * 256 + b) 0

/-- u16::to_be_bytes. -/
def u16ToBe (v : Nat) : List Nat := [v / 256 % 256, v % 256]

/-- u32::to_be_bytes. -/
def u32ToBe (v : Nat) : List Nat :=
  [v / 2 ^ 24 % 256, v / 2 ^ 16 % 256, v / 2 ^ 8 % 256, v % 256]

/-- u64::to_be_bytes. -/
def u64ToBe (v : Nat) : List Nat :=
  [v / 2 ^ 56 % 256, v / 2 ^ 48 % 256, v / 2 ^ 40 % 256, v / 2 ^ 32 % 256,
   v / 2 ^ 24 % 256, v / 2 ^ 16 % 256, v / 2 ^ 8 % 256, v % 256]

/-- Errors of tlv.rs VarintDecodingError. -/
inductive VarintDecodingError where
  | bufferTooShort
  | nonMinimalIntegerEncoding
  | invalidValue
deriving DecidableEq, Repr

/-- tlv.rs impl Encode for Varint, encoded_length. -/
def varintEncodedLength (v : Nat) : Nat :=
  if v ≤ 252 then 1 else if v ≤ 65535 then 3 else if v ≤ 4294967295 then 5 else 9

/-- tlv.rs impl Encode for Varint, encode (writing into an infallible byte
vector); the casts as u16 and as u32 are the explicit mod operations. -/
def varintEncode (v : Nat) : List Nat :=
  if v ≤ 252 then [v]
  else if v ≤ 65535 then 253 :: u16ToBe (v % 2 ^ 16)
  else if v ≤ 4294967295 then 254 :: u32ToBe (v % 2 ^ 32)
  else 255 :: u64ToBe (v % 2 ^ 64)

/-- tlv.rs Varint::try_decode. The final match arm of the source covers the
discriminant byte 255. -/
def varintTryDecode : List Nat → Except VarintDecodingError (Nat × Nat)
  | [] => .error .bufferTooShort
  | b :: rest =>
    if b ≤ 252 then .ok (b, 1)
    else if b = 253 then
      match rest with
      | b1 :: b2 :: _ =>
        let val := u16FromBe b1 b2
        if 252 < val then .ok (val, 3) else .error .nonMinimalIntegerEncoding
      | _ => .error .bufferTooShort
    else if b = 254 then
      match rest with
      | b1 :: b2 :: b3 :: b4 :: _ =>
        let val := u32FromBe b1 b2 b3 b4
        if 65535 < val then .ok (val, 5) else .error .nonMinimalIntegerEncoding
      | _ => .error .bufferTooShort
    else
      match rest with
      | b1 :: b2 :: b3 :: b4 :: b5 :: b6 :: b7 :: b8 :: _ =>
        let val := u64FromBeList [b1, b2, b3, b4, b5, b6, b7, b8]
        if 4294967295 < val then .ok (val, 9) else .error .nonMinimalIntegerEncoding
      | _ => .error .bufferTooShort

/-- Errors of tlv.rs TlvDecodingError (the NonZeroU32 type field is a plain
natural number here; zero or out-of-u32-range types are rejected exactly
where the source rejects them). -/
inductive TlvDecodingError where
  | cannotDecodeType (err : VarintDecodingError)
  | cannotDecodeLength (typ : Nat) (err : VarintDecodingError)
  | cannotDecodeValue (typ : Nat) (len : Nat)
deriving DecidableEq, Repr

/-- tlv.rs TLV view: nonzero u32 type and borrowed value bytes. -/
structure TLVv where
  typ : Nat
  val : List Nat
deriving DecidableEq, Repr

/-- tlv.rs impl Decode for TLV: varint type (rejecting zero and values above
u32::MAX), varint length, bounds check, value slice. -/
def tlvTryDecode (bytes : List Nat) : Except TlvDecodingError (TLVv × Nat) :=
  match varintTryDecode bytes with
  | .error err => .error (.cannotDecodeType err)
  | .ok (typVal, typLen) =>
    if typVal = 0 ∨ 4294967295 < typVal then .error (.cannotDecodeType .invalidValue)
    else
      match varintTryDecode (bytes.drop typLen) with
      | .error err => .error (.cannotDecodeLength typVal err)
      | .ok (len, lenLen) =>
        let cursor := typLen + lenLen
        if bytes.length < cursor + len then .error (.cannotDecodeValue typVal len)
        else .ok ({ typ := typVal, val := (bytes.drop cursor).take len }, cursor + len)

/-- tlv.rs TLV::type_is_critical (referenced as is_critical by packet.rs). -/
def TLVv.typeIsCritical (t : TLVv) : Bool :=
  t.typ < 32 || t.typ % 2 = 1

/-- tlv.rs impl Decode for u64: a typed integer value of 1, 2, 4 or 8
big-endian bytes, the length given by the value slice. -/
def u64TryDecodeTyped (bytes : List Nat) : Option (Nat × Nat) :=
  match bytes with
  | [b0] => some (b0, 1)
  | [b0, b1] => some (u16FromBe b0 b1, 2)
  | [b0, b1, b2, b3] => some (u32FromBe b0 b1 b2 b3, 4)
  | [b0, b1, b2, b3, b4, b5, b6, b7] =>
    some (u64FromBeList [b0, b1, b2, b3, b4, b5, b6, b7], 8)
  | _ => none

/-- Modelled from the spec: the TLV helper val_as_u64 is referenced by
packet.rs but its definition is not under src; per the spec, integer values
as TLV content are 1/2/4/8-byte big-endian selected by the enclosing length,
which is exactly impl Decode for u64 in tlv.rs applied to the value slice. -/
def TLVv.valAsU64 (t : TLVv) : Option Nat :=
  (u64TryDecodeTyped t.val).map Prod.fst

/-- tlv.rs impl Encode for u64, encoded_length. -/
def u64EncodedLength (v : Nat) : Nat :=
  if v ≤ 252 then 1 else if v ≤ 65535 then 2 else if v ≤ 4294967295 then 4 else 8

/-- tlv.rs impl Encode for u64, encode (writing the explicit casts as mod). -/
def u64Encode (v : Nat) : List Nat :=
  if v ≤ 252 then [v]
  else if v ≤ 65535 then u16ToBe (v % 2 ^ 16)
  else if v ≤ 4294967295 then u32ToBe (v % 2 ^ 32)
  else u64ToBe (v % 2 ^ 64)

/-- tlv.rs impl Encode for TLV, encoded_length. -/
def TLVv.encodedLength (t : TLVv) : Nat :=
  varintEncodedLength t.typ + varintEncodedLength t.val.length + t.val.length

/-- tlv.rs impl Encode for TLV, encode. -/
def TLVv.encode (t : TLVv) : List Nat :=
  varintEncode t.typ ++ varintEncode t.val.length ++ t.val

/-- name.rs NameComponent: a nonzero u16 type and opaque bytes. -/
structure NameComponent where
  typ : Nat
  bytes : List Nat
deriving DecidableEq, Repr

/-- name.rs NameInner: the three representations of a name view. -/
inductive NameInner where
  | empty
  | buffer (componentBytes : List Nat) (componentCount : Nat) (originalCount : Nat)
  | components (original : NameInner) (batch : List NameComponent) (remainingCount : Nat)
deriving DecidableEq, Repr

/-- The scan loop of name.rs Name::try_decode_from_inner, counting the
sequentially decoded component TLVs; the NonZeroU16 conversion rejects types
above u16::MAX (zero types are already rejected by the TLV decoder). Fuel is
the number of remaining loop iterations, always sufficient for the callers
below since every TLV consumes at least one byte. -/
def nameCountLoop (inner : List Nat) : Nat → Nat → Nat → Option Nat
  | fuel + 1, offset, count =>
    if offset < inner.length then
      match tlvTryDecode (inner.drop offset) with
      | .error _ => none
      | .ok (tlv, len) =>
        if tlv.typ ≤ 65535 then nameCountLoop inner fuel (offset + len) (count + 1)
        else none
    else if offset = inner.length then some count else none
  | 0, _, _ => none

/-- name.rs Name::try_decode_from_inner. -/
def nameTryDecodeFromInner (inner : List Nat) : Option NameInner :=
  match nameCountLoop inner (inner.length + 1) 0 0 with
  | none => none
  | some 0 => some .empty
  | some count => some (.buffer inner count count)

/-- name.rs Name::component_count. -/
def NameInner.componentCount : NameInner → Nat
  | .empty => 0
  | .buffer _ c _ => c
  | .components original _ rem => original.componentCount + rem

/-- name.rs Name::adding_components. -/
def NameInner.addingComponents (n : NameInner) (cs : List NameComponent) : NameInner :=
  .components n cs cs.length

/-- name.rs Name::compute_iter, accumulating the innermost buffer, its
component count, and the number of freely appended components. -/
def computeIterAux : NameInner → Option (List Nat) → Nat → Nat →
    Option (List Nat) × Nat × Nat
  | .empty, ib, ic, fc => (ib, ic, fc)
  | .buffer bytes count _, _, _, fc => (some bytes, count, fc)
  | .components original _ rem, ib, ic, fc => computeIterAux original ib ic (fc + rem)

/-- name.rs NameComponentIterator state: the innermost buffer with a byte
offset, the remaining buffer components, the remaining appended components,
and the outermost name. -/
structure NameIter where
  innermostBytes : Option (List Nat × Nat)
  innermostRemaining : Nat
  freeComponents : Nat
  name : NameInner
deriving Repr

/-- The walk of NameComponentIterator::next from the outermost name inward
selecting the free component numbered k counting down from the total; an
out-of-range index or a non-chain node is a Rust panic, modelled as none. -/
def findFreeComponent : NameInner → Nat → Option NameComponent
  | .components original cs rem, k =>
    if rem < k then findFreeComponent original (k - rem)
    else cs[rem - k]?
  | .empty, _ => none
  | .buffer _ _ _, _ => none

/-- name.rs NameComponentIterator::next. Rust panics (unreachable decode
errors, NonZeroU16 unwrap) are modelled as iteration end. -/
def iterNext (it : NameIter) : Option (NameComponent × NameIter) :=
  if it.innermostRemaining = 0 ∧ it.freeComponents = 0 then none
  else
    let it1 := if it.innermostRemaining = 0 then
                 { it with innermostBytes := none } else it
    match it1.innermostBytes with
    | some (bytes, offset) =>
      match tlvTryDecode (bytes.drop offset) with
      | .ok (tlv, len) =>
        if tlv.typ ≤ 65535 then
          some ({ typ := tlv.typ, bytes := tlv.val },
            { it1 with innermostBytes := some (bytes, offset + len),
                       innermostRemaining := it1.innermostRemaining - 1 })
        else none
      | .error _ => none
    | none =>
      match findFreeComponent it1.name it1.freeComponents with
      | some c => some (c, { it1 with freeComponents := it1.freeComponents - 1 })
      | none => none

/-- Driving the iterator: collect at most fuel components, stopping at the
first None. -/
def iterRun : Nat → NameIter → List NameComponent
  | 0, _ => []
  | fuel + 1, it =>
    match iterNext it with
    | none => []
    | some (c, it2) => c :: iterRun fuel it2

/-- name.rs Name::components driven to a list; the fuel equals the total
number of components announced by compute_iter, after which the Rust
iterator returns None. -/
def NameInner.componentsList (n : NameInner) : List NameComponent :=
  let s := computeIterAux n none 0 0
  iterRun (s.2.1 + s.2.2)
    { innermostBytes := s.1.map (fun b => (b, 0)),
      innermostRemaining := s.2.1, freeComponents := s.2.2, name := n }

/-- The offset-advancing loop of name.rs Name::inner_length and encode_inner
for a truncated buffer: decode component_count TLVs and return the end
offset; a decode error is a Rust unreachable panic, modelled as none. -/
def bufferTakeOffset (bytes : List Nat) : Nat → Nat → Option Nat
  | 0, offset => some offset
  | cc + 1, offset =>
    match tlvTryDecode (bytes.drop offset) with
    | .ok (_, len) => bufferTakeOffset bytes cc (offset + len)
    | .error _ => none

/-- name.rs Name::inner_length (as TlvEncode); indexing past the stored
batch is a Rust panic, modelled as none. -/
def NameInner.innerLength : NameInner → Option Nat
  | .empty => some 0
  | .buffer bytes count original =>
    if count = original then some bytes.length
    else bufferTakeOffset bytes count 0
  | .components original cs rem =>
    if cs.length < rem then none
    else match original.innerLength with
      | none => none
      | some l =>
        some (l + ((cs.take rem).map (fun c => (TLVv.mk c.typ c.bytes).encodedLength)).sum)

/-- name.rs Name::encode_inner (as TlvEncode). -/
def NameInner.encodeInner : NameInner → Option (List Nat)
  | .empty => some []
  | .buffer bytes count original =>
    if count = original then some bytes
    else (bufferTakeOffset bytes count 0).map (fun off => bytes.take off)
  | .components original cs rem =>
    if cs.length < rem then none
    else match original.encodeInner with
      | none => none
      | some pre =>
        some (pre ++ ((cs.take rem).map (fun c => (TLVv.mk c.typ c.bytes).encode)).flatten)

/-- tlv.rs blanket impl Encode for TlvEncode applied to Name: varint type 7,
varint inner length, inner bytes. -/
def NameInner.encode (n : NameInner) : Option (List Nat) :=
  match n.innerLength, n.encodeInner with
  | some len, some inner => some (varintEncode 7 ++ varintEncode len ++ inner)
  | _, _ => none

/-- The blanket encoded_length for Name: varint overheads plus inner length. -/
def NameInner.encodedLength (n : NameInner) : Option Nat :=
  (n.innerLength).map (fun len => varintEncodedLength 7 + varintEncodedLength len + len)

/-- A component buffer whose bytes, from a given offset, decode sequentially
into the listed components (with types in u16 range): the well-formedness
that Name::try_decode_from_inner establishes for its buffer. -/
inductive DecodesTo (bytes : List Nat) : Nat → List NameComponent → Prop
  | nil (off : Nat) : DecodesTo bytes off []
  | cons (off : Nat) (tlv : TLVv) (len : Nat) (cs : List NameComponent)
      (hdec : tlvTryDecode (bytes.drop off) = .ok (tlv, len))
      (htyp : tlv.typ ≤ 65535)
      (hrest : DecodesTo bytes (off + len) cs) :
      DecodesTo bytes off (NameComponent.mk tlv.typ tlv.val :: cs)

/-- A core name extended by a sequence of appended batches, one
adding_components call per batch, in order. -/
def chainAdd (n : NameInner) : List (List NameComponent) → NameInner
  | [] => n
  | b :: rest => chainAdd (n.addingComponents b) rest

/-- Total number of components over a sequence of batches. -/
def totalLen (bs : List (List NameComponent)) : Nat :=
  (bs.map List.length).sum

/-! Reference tables (src/src/tables/reference.rs). Names reaching the
tables are consumed exclusively through Name::components / component_count,
so the tables are embedded over component lists. FaceToken and cost are u32
values; timestamps are u64 milliseconds with saturating adds. -/

/-- A four-byte interest nonce ([u8; 4]). -/
structure Nonce4 where
  b0 : Nat
  b1 : Nat
  b2 : Nat
  b3 : Nat
deriving DecidableEq, Repr

/-- Timestamp::adding: saturating u64 addition. -/
def tsAdding (t ms : Nat) : Nat := min (t + ms) U64MAX

/-- reference.rs DeadNonceList::add_to_hash: rotate_left(5), xor, wrapping
multiply by 0x517cc1b727220a95, on u64. -/
def addToHash (hash i : Nat) : Nat :=
  ((hash * 32 + hash / 2 ^ 59) % 2 ^ 64 ^^^ i) * 0x517cc1b727220a95 % 2 ^ 64

/-- The chunking loop of hash_name_and_nonce over one component's bytes:
while more than eight bytes remain a whole 8-byte chunk is folded in; a
nonempty remainder is copied with copy_from_slice, which panics (none)
unless it is exactly 8 bytes long. -/
def hashChunksLoop : List Nat → Nat → Option Nat
  | [], hash => some hash
  | [b0, b1, b2, b3, b4, b5, b6, b7], hash =>
    some (addToHash hash (u64FromBeList [b0, b1, b2, b3, b4, b5, b6, b7]))
  | b0 :: b1 :: b2 :: b3 :: b4 :: b5 :: b6 :: b7 :: c :: rest, hash =>
    hashChunksLoop (c :: rest)
      (addToHash hash (u64FromBeList [b0, b1, b2, b3, b4, b5, b6, b7]))
  | _, _ => none

/-- The per-component fold of hash_name_and_nonce. -/
def hashComponents : List NameComponent → Nat → Option Nat
  | [], h => some h
  | c :: rest, h =>
    match hashChunksLoop c.bytes (addToHash h c.typ) with
    | none => none
    | some h2 => hashComponents rest h2

/-- u32::from_be_bytes of a nonce. -/
def u32FromNonce (n : Nonce4) : Nat := u32FromBe n.b0 n.b1 n.b2 n.b3

/-- reference.rs DeadNonceList::hash_name_and_nonce. -/
def hashNameAndNonce (name : List NameComponent) (nonce : Nonce4) : Option Nat :=
  (hashComponents name 0).map (fun h => addToHash h (u32FromNonce nonce))

/-- reference.rs DeadNonceList: a map from u64 hash to expiry timestamp
(BTreeMap modelled as an association list with replacing insert). -/
structure DNL where
  elements : List (Nat × Nat)
  durationToKeepMs : Nat
deriving DecidableEq, Repr

/-- BTreeMap::insert semantics on the association list. -/
def dnlUpdate (elements : List (Nat × Nat)) (k v : Nat) : List (Nat × Nat) :=
  if elements.any (fun e => e.1 = k) then
    elements.map (fun e => if e.1 = k then (k, v) else e)
  else elements ++ [(k, v)]

/-- BTreeMap::contains_key. -/
def DNL.containsHash (d : DNL) (k : Nat) : Bool := d.elements.any (fun e => e.1 = k)

/-- reference.rs DeadNonceList::contains; none models the hash panic. -/
def DNL.contains (d : DNL) (name : List NameComponent) (nonce : Nonce4) : Option Bool :=
  (hashNameAndNonce name nonce).map (fun k => d.containsHash k)

/-- reference.rs DeadNonceList::insert; none models the hash panic. -/
def DNL.insert (d : DNL) (name : List NameComponent) (nonce : Nonce4) (now : Nat) :
    Option DNL :=
  (hashNameAndNonce name nonce).map
    (fun k => { d with elements := dnlUpdate d.elements k (tsAdding now d.durationToKeepMs) })

/-- reference.rs DeadNonceList::prune: retain entries with v <= now. -/
def DNL.prune (d : DNL) (now : Nat) : DNL :=
  { d with elements := d.elements.filter (fun e => e.2 ≤ now) }

/-- reference.rs FibEntry. -/
structure RFibEntry where
  cost : Nat
  nextHop : Nat
deriving DecidableEq, Repr

/-- reference.rs PitInEntry. -/
structure RPitIn where
  replyTo : Nat
  lastNonce : Nonce4
deriving DecidableEq, Repr

/-- reference.rs PitEntry. -/
structure RPit where
  pitIn : List RPitIn
  removalDeadline : Nat
  latestTransmissionTime : Nat
  transmissionCount : Nat
deriving DecidableEq, Repr

/-- reference.rs PitEntry::new. -/
def RPit.new : RPit := ⟨[], 0, U64MAX, 0⟩

/-- reference.rs DataEntry. -/
structure RData where
  dataBytes : List Nat
  freshnessDeadline : Nat
  removalDeadline : Nat
deriving DecidableEq, Repr

/-- reference.rs EncodedComponent. -/
structure EncodedComponent where
  typ : Nat
  bytes : List Nat
deriving DecidableEq, Repr

/-- reference.rs TableEntry: node of the merged trie. The children list is
kept ordered by EncodedComponent, as the source maintains. -/
inductive RNode where
  | mk (fib : List RFibEntry) (pitNormal : RPit) (pitPrefixSlot : RPit)
       (dataE : Option RData) (children : List (EncodedComponent × RNode))

def RNode.fib : RNode → List RFibEntry
  | .mk f _ _ _ _ => f

def RNode.pitNormal : RNode → RPit
  | .mk _ p _ _ _ => p

def RNode.pitPrefixSlot : RNode → RPit
  | .mk _ _ p _ _ => p

def RNode.dataE : RNode → Option RData
  | .mk _ _ _ d _ => d

def RNode.children : RNode → List (EncodedComponent × RNode)
  | .mk _ _ _ _ c => c

/-- reference.rs TableEntry::new. -/
def RNode.new : RNode := .mk [] RPit.new RPit.new none []

/-- Replace the PIT slot selected by the can-be-prefix flag. -/
def RNode.setPit (self : RNode) (cbp : Bool) (p : RPit) : RNode :=
  match self with
  | .mk f pn pp d c => if cbp then .mk f pn p d c else .mk f p pp d c

/-- Replace the children list. -/
def RNode.setChildren (self : RNode) (cs : List (EncodedComponent × RNode)) : RNode :=
  match self with
  | .mk f pn pp d _ => .mk f pn pp d cs

/-- Lexicographic byte-slice strict order (Box::cmp of the source). -/
def bytesLt : List Nat → List Nat → Bool
  | [], [] => false
  | [], _ :: _ => true
  | _ :: _, [] => false
  | a :: as0, b :: bs0 => if a < b then true else if a = b then bytesLt as0 bs0 else false

/-- EncodedComponent::compare_to_name_component as a strict order: type
first, then bytes. -/
def compLtN (c : EncodedComponent) (d : NameComponent) : Bool :=
  if c.typ = d.typ then bytesLt c.bytes d.bytes else c.typ < d.typ

/-- EncodedComponent::compare_to_name_component equality. -/
def compEqN (c : EncodedComponent) (d : NameComponent) : Bool :=
  c.typ = d.typ && c.bytes = d.bytes

/-- First index satisfying a predicate. -/
def findFirstIdx (p : α → Bool) : List α → Option Nat
  | [] => none
  | x :: rest => if p x then some 0 else (findFirstIdx p rest).map (fun i => i + 1)

/-- binary_search_by over the ordered children: the matching index, if any. -/
def findChildIdx (children : List (EncodedComponent × RNode)) (d : NameComponent) :
    Option Nat :=
  findFirstIdx (fun x => compEqN x.1 d) children

/-- binary_search_by Err: the insertion position keeping children ordered
(the number of strictly smaller children). -/
def insertPos (children : List (EncodedComponent × RNode)) (d : NameComponent) : Nat :=
  children.countP (fun x => compLtN x.1 d)

/-- Stable less-or-equal for FibEntry derive(Ord): cost, then next_hop. -/
def fibLe (a b : RFibEntry) : Bool :=
  if a.cost = b.cost then a.nextHop ≤ b.nextHop else a.cost < b.cost

/-- Insert into a fibLe-sorted list. -/
def insertSortedFib (a : RFibEntry) : List RFibEntry → List RFibEntry
  | [] => [a]
  | b :: rest => if fibLe a b then a :: b :: rest else b :: insertSortedFib a rest

/-- Vec::sort for the FIB set: a sort by the total FibEntry order. -/
def sortFib : List RFibEntry → List RFibEntry
  | [] => []
  | a :: rest => insertSortedFib a (sortFib rest)

/-- Update the cost of the first FIB record of a face (Vec position + index
assignment of register_prefix). -/
def updateFirstFib : List RFibEntry → Nat → Nat → List RFibEntry
  | [], _, _ => []
  | y :: rest, face, cost =>
    if y.nextHop = face then { y with cost := cost } :: rest
    else y :: updateFirstFib rest face cost

/-- reference.rs TableEntry::register_prefix. -/
def RNode.registerPrefixWalk : RNode → List NameComponent → Nat → Nat → RNode
  | self, [], face, cost =>
    let fib1 := if self.fib.any (fun y => y.nextHop = face)
      then updateFirstFib self.fib face cost
      else self.fib ++ [RFibEntry.mk cost face]
    (match self with
      | .mk _ pn pp d c => RNode.mk (sortFib fib1) pn pp d c)
  | self, component :: rest, face, cost =>
    match findChildIdx self.children component with
    | some idx =>
      match self.children[idx]? with
      | some (comp, child) =>
        self.setChildren
          (self.children.set idx (comp, child.registerPrefixWalk rest face cost))
      | none => self
    | none =>
      self.setChildren
        (self.children.insertIdx (insertPos self.children component)
          (EncodedComponent.mk component.typ component.bytes,
            RNode.new.registerPrefixWalk rest face cost))

/-- The pit_in scan of register_interest: checks each record for a nonce
loop, and for the origin face updates a differing nonce after inserting the
incoming nonce into the dead nonce list (as the source does). Returns the
new records, dead nonce list, the loop flag and the origin-found flag; none
models a panic inside the hash. -/
def scanPitIn : List RPitIn → List NameComponent → Nat → Nonce4 → Nat → DNL →
    Option (List RPitIn × DNL × Bool × Bool)
  | [], _, _, _, _, dnl => some ([], dnl, false, false)
  | ff :: rest, name, replyTo, nonce, now, dnl =>
    if ff.replyTo = replyTo then
      if ff.lastNonce = nonce then
        match scanPitIn rest name replyTo nonce now dnl with
        | some (rest2, dnl2, _, _) => some (ff :: rest2, dnl2, true, true)
        | none => none
      else
        match DNL.insert dnl name nonce now with
        | none => none
        | some dnl1 =>
          match scanPitIn rest name replyTo nonce now dnl1 with
          | some (rest2, dnl2, l2, _) =>
            some (RPitIn.mk ff.replyTo nonce :: rest2, dnl2, l2, true)
          | none => none
    else
      match scanPitIn rest name replyTo nonce now dnl with
      | some (rest2, dnl2, l2, f2) =>
        some (ff :: rest2, dnl2, decide (ff.lastNonce = nonce) || l2, f2)
      | none => none

/-- reference.rs TableEntry::register_interest. The walk follows the
remaining components accumulating candidate faces in reverse cost order; at
the terminal node the PIT slot selected by the can-be-prefix flag is
updated. A Rust panic (indexing an empty candidate list, modulo by zero,
or a hash panic) is modelled as none. The u8 transmission counter wraps
modulo 256. -/
def RNode.registerInterest : RNode → List NameComponent → List NameComponent → Bool →
    Nat → Nat → Nat → Nonce4 → DNL → List (Nat × Nat) →
    Option (RNode × DNL × List (Nat × Nat))
  | self, name, component :: rest, cbp, replyTo, now, deadline, nonce, dnl, faces =>
    let faces2 := faces ++ (self.fib.reverse.map (fun x => (x.cost, x.nextHop)))
    match findChildIdx self.children component with
    | some idx =>
      match self.children[idx]? with
      | some (comp, child) =>
        match child.registerInterest name rest cbp replyTo now deadline nonce dnl faces2 with
        | some (child2, dnl2, faces3) =>
          some (self.setChildren (self.children.set idx (comp, child2)), dnl2, faces3)
        | none => none
      | none => none
    | none =>
      if faces2.length = 0 then some (self, dnl, faces2)
      else
        match RNode.new.registerInterest name rest cbp replyTo now deadline nonce dnl faces2 with
        | some (child2, dnl2, faces3) =>
          some (self.setChildren
            (self.children.insertIdx (insertPos self.children component)
              (EncodedComponent.mk component.typ component.bytes, child2)), dnl2, faces3)
        | none => none
  | self, name, [], cbp, replyTo, now, deadline, nonce, dnl, faces =>
    let pit := if cbp then self.pitPrefixSlot else self.pitNormal
    if pit.pitIn.length = 0 then
      match faces[faces.length - 1]? with
      | none => none
      | some top =>
        some (self.setPit cbp
          (RPit.mk [RPitIn.mk replyTo nonce] deadline now 1), dnl, [top])
    else
      let pit1 : RPit := { pit with removalDeadline := max pit.removalDeadline deadline }
      match scanPitIn pit1.pitIn name replyTo nonce now dnl with
      | none => none
      | some (pitIn2, dnl2, nonceLoop, found) =>
        let pitIn3 := if found then pitIn2 else pitIn2 ++ [RPitIn.mk replyTo nonce]
        let pit2 : RPit := { pit1 with pitIn := pitIn3 }
        if nonceLoop then some (self.setPit cbp pit2, dnl2, [])
        else
          if now < tsAdding pit2.latestTransmissionTime
              (8 * 2 ^ min pit2.transmissionCount 5) then
            some (self.setPit cbp pit2, dnl2, [])
          else
            let tc2 := (pit2.transmissionCount + 1) % 256
            let pit3 : RPit := { pit2 with latestTransmissionTime := now,
                                           transmissionCount := tc2 }
            if faces.length = 0 then none
            else
              match faces[faces.length - 1 - tc2 % faces.length]? with
              | none => none
              | some pick => some (self.setPit cbp pit3, dnl2, [pick])

/-- reference.rs ReferenceTables. -/
structure RTables where
  root : RNode
  dnl : DNL
  dataCacheDurationMs : Nat

/-- reference.rs ReferenceTables::new. -/
def RTables.new (dataCacheDurationMs deadNonceDurationMs : Nat) : RTables :=
  ⟨RNode.new, ⟨[], deadNonceDurationMs⟩, dataCacheDurationMs⟩

/-- reference.rs Tables::register_prefix for ReferenceTables. -/
def RTables.registerPrefixTop (t : RTables) (name : List NameComponent)
    (face cost : Nat) : RTables :=
  { t with root := t.root.registerPrefixWalk name face cost }

/-- reference.rs Tables::register_interest for ReferenceTables: empty-name
check, dead-nonce check, deadline computation (default 4000 ms lifetime),
trie walk, and the scratchpad mapped to face tokens. -/
def RTables.registerInterestTop (t : RTables) (name : List NameComponent) (cbp : Bool)
    (interestLifetime : Option Nat) (nonce : Nonce4) (replyTo : Nat) (now : Nat) :
    Option (RTables × List Nat) :=
  if name.length = 0 then some (t, [])
  else
    match t.dnl.contains name nonce with
    | none => none
    | some true => some (t, [])
    | some false =>
      let deadline := match interestLifetime with
        | some ms => tsAdding now ms
        | none => tsAdding now 4000
      match t.root.registerInterest name name cbp replyTo now deadline nonce t.dnl [] with
      | none => none
      | some (root2, dnl2, faces) =>
        some ({ t with root := root2, dnl := dnl2 }, faces.map (fun x => x.2))

/-- The PIT slot of the node reached by following the component path. -/
def pitAtPath : RNode → List NameComponent → Bool → Option RPit
  | node, [], cbp => some (if cbp then node.pitPrefixSlot else node.pitNormal)
  | node, c :: rest, cbp =>
    match findChildIdx node.children c with
    | some idx =>
      match node.children[idx]? with
      | some (_, child) => pitAtPath child rest cbp
      | none => none
    | none => none

/-! Concrete table scenarios. The component byte strings are empty so that
the dead-nonce hash, which panics on byte lengths that are not multiples of
eight, is defined. -/

/-- Component of type 8 with empty bytes. -/
def cmpA : NameComponent := NameComponent.mk 8 []

/-- Component of type 9 with empty bytes. -/
def cmpB : NameComponent := NameComponent.mk 9 []

/-- A first nonce. -/
def nA : Nonce4 := Nonce4.mk 1 1 1 1

/-- A second, different nonce. -/
def nB : Nonce4 := Nonce4.mk 2 2 2 2

/-- C10 scenario: registering a FIB prefix /A/B creates the trie path with
no FIB entry on the node /A itself. -/
def c10Tables : RTables := (RTables.new 60000 6000).registerPrefixTop [cmpA, cmpB] 2 0

/-- C3/C4 scenario start: FIB for /A to face 2 at cost 5. -/
def cTables0 : RTables := (RTables.new 60000 6000).registerPrefixTop [cmpA] 2 5

/-- First interest: name /A/B, exact-match slot, nonce nA, origin face 1,
time 100. -/
def cFirstCall : Option (RTables × List Nat) :=
  cTables0.registerInterestTop [cmpA, cmpB] false none nA 1 100

/-- Tables after the admitted first interest. -/
def cTables1 : RTables := (cFirstCall.getD (cTables0, [])).1

/-- C7 scenario: a node whose exact-match PIT slot has one pending record
from face 9 with nonce nA, transmission count 1, latest transmission at
1000. -/
def c7Node : RNode :=
  RNode.mk [] (RPit.mk [RPitIn.mk 9 nA] 5000 1000 1) RPit.new none []

/-! packet.rs: the Interest packet view with its decode and encode chain.
Throughout, `(x as u64).encode`/`encoded_length` on types, lengths and
integer values is tlv.rs impl Encode for u64 (u64Encode/u64EncodedLength),
while Name itself encodes through the blanket TlvEncode impl (varints).
The calls written `Name::try_decode(tlv.val)` resolve through the blanket
decoders to Name::try_decode_from_inner on the value slice. -/

/-- packet.rs KeyLocator. -/
inductive KeyLocator where
  | name (n : NameInner)
  | keyDigest (bytes : List Nat)
deriving Repr

/-- packet.rs KeyLocator::try_decode. -/
def KeyLocator.tryDecode (inner : List Nat) : Option KeyLocator :=
  match tlvTryDecode inner with
  | .error _ => none
  | .ok (tlv, _) =>
    if tlv.typ = 7 then (nameTryDecodeFromInner tlv.val).map KeyLocator.name
    else if tlv.typ = 28 then some (KeyLocator.keyDigest tlv.val)
    else none

/-- packet.rs impl Encode for KeyLocator, the inner length match. -/
def KeyLocator.innerEncodedLength : KeyLocator → Option Nat
  | .name n => n.encodedLength
  | .keyDigest items =>
    some (u64EncodedLength 28 + u64EncodedLength items.length + items.length)

/-- packet.rs KeyLocator::encoded_length. -/
def KeyLocator.encodedLength (k : KeyLocator) : Option Nat :=
  k.innerEncodedLength.map (fun len =>
    u64EncodedLength 29 + u64EncodedLength len + len)

/-- packet.rs KeyLocator::encode: note the source writes the full
encoded_length (outer type and length fields included) as the length. -/
def KeyLocator.encode (k : KeyLocator) : Option (List Nat) := do
  let len ← k.encodedLength
  match k with
  | .name n => do
    let nb ← n.encode
    some (u64Encode 29 ++ u64Encode len ++ nb)
  | .keyDigest items =>
    some (u64Encode 29 ++ u64Encode len ++
      u64Encode 28 ++ u64Encode items.length ++ items)

/-- packet.rs InterestSignatureInfo. -/
structure InterestSignatureInfo where
  signatureType : Nat
  keyLocator : Option KeyLocator
  nonce : Option (List Nat)
  signatureTime : Option Nat
  signatureSeqNum : Option Nat
deriving Repr

/-- The while loop of InterestSignatureInfo::try_decode over the TLVs after
the signature type, with fuel bounding the iteration count. -/
def interestSigInfoLoop (inner : List Nat) :
    Nat → Nat → Option KeyLocator → Option (List Nat) → Option Nat → Option Nat →
    Option (Option KeyLocator × Option (List Nat) × Option Nat × Option Nat)
  | fuel + 1, offset, kl, nn, st, ssn =>
    if offset < inner.length then
      match tlvTryDecode (inner.drop offset) with
      | .error _ => none
      | .ok (tlv, len) =>
        if tlv.typ = 29 then
          match KeyLocator.tryDecode tlv.val with
          | none => none
          | some k => interestSigInfoLoop inner fuel (offset + len) (some k) nn st ssn
        else if tlv.typ = 38 then
          interestSigInfoLoop inner fuel (offset + len) kl (some tlv.val) st ssn
        else if tlv.typ = 40 then
          match tlv.valAsU64 with
          | none => none
          | some v => interestSigInfoLoop inner fuel (offset + len) kl nn (some v) ssn
        else if tlv.typ = 42 then
          match tlv.valAsU64 with
          | none => none
          | some v => interestSigInfoLoop inner fuel (offset + len) kl nn st (some v)
        else none
    else some (kl, nn, st, ssn)
  | 0, _, _, _, _, _ => none

/-- packet.rs InterestSignatureInfo::try_decode. -/
def InterestSignatureInfo.tryDecode (inner : List Nat) :
    Option InterestSignatureInfo :=
  match tlvTryDecode inner with
  | .error _ => none
  | .ok (tlv0, l0) =>
    if tlv0.typ = 27 then
      match tlv0.valAsU64 with
      | none => none
      | some st =>
        match interestSigInfoLoop inner (inner.length + 1) l0 none none none none with
        | none => none
        | some (kl, nn, stm, ssn) =>
          some (InterestSignatureInfo.mk st kl nn stm ssn)
    else none

/-- packet.rs InterestSignatureInfo::encoded_length. -/
def InterestSignatureInfo.encodedLength (si : InterestSignatureInfo) :
    Option Nat := do
  let kl ← match si.keyLocator with
    | none => some 0
    | some k => k.encodedLength
  let len := u64EncodedLength 27 + u64EncodedLength si.signatureType + kl
    + (match si.nonce with
       | none => 0
       | some n => u64EncodedLength 38 + u64EncodedLength n.length + n.length)
    + (match si.signatureTime with
       | none => 0
       | some t => u64EncodedLength 40 + u64EncodedLength t)
    + (match si.signatureSeqNum with
       | none => 0
       | some s => u64EncodedLength 42 + u64EncodedLength s)
  some (u64EncodedLength 44 + u64EncodedLength len + len)

/-- packet.rs InterestSignatureInfo::encode: the source writes the full
encoded_length as the length field, and the integer times without an inner
length field, as the source does. -/
def InterestSignatureInfo.encode (si : InterestSignatureInfo) :
    Option (List Nat) := do
  let len ← si.encodedLength
  let klb ← match si.keyLocator with
    | none => some []
    | some k => k.encode
  some (u64Encode 44 ++ u64Encode len ++
    u64Encode 27 ++ u64Encode si.signatureType ++ klb
    ++ (match si.nonce with
        | none => []
        | some n => u64Encode 38 ++ u64Encode n.length ++ n)
    ++ (match si.signatureTime with
        | none => []
        | some t => u64Encode 40 ++ u64Encode t)
    ++ (match si.signatureSeqNum with
        | none => []
        | some s => u64Encode 42 ++ u64Encode s))

/-- packet.rs ApplicationParameters; as in the source, the signature pair
stores the bytes that try_decode put there. -/
structure ApplicationParameters where
  payload : List Nat
  signature : Option (InterestSignatureInfo × List Nat)
deriving Repr

/-- packet.rs ApplicationParameters::try_decode (the stored signature bytes
are si_tlv.val exactly as in the source). -/
def ApplicationParameters.tryDecode (inner : List Nat) :
    Option ApplicationParameters :=
  match tlvTryDecode inner with
  | .error _ => none
  | .ok (tlv, innerLen) =>
    if tlv.typ = 36 then
      if innerLen < inner.length then
        match tlvTryDecode (inner.drop innerLen) with
        | .error _ => none
        | .ok (siTlv, siLen) =>
          if siTlv.typ = 44 then
            match InterestSignatureInfo.tryDecode siTlv.val with
            | none => none
            | some si =>
              match tlvTryDecode (inner.drop (innerLen + siLen)) with
              | .error _ => none
              | .ok (svTlv, svLen) =>
                if svTlv.typ = 46 then
                  if innerLen + siLen + svLen = inner.length then
                    some (ApplicationParameters.mk tlv.val (some (si, siTlv.val)))
                  else none
                else none
          else none
      else some (ApplicationParameters.mk tlv.val none)
    else none

/-- packet.rs ApplicationParameters::encoded_length. -/
def ApplicationParameters.encodedLength (ap : ApplicationParameters) :
    Option Nat :=
  let base := u64EncodedLength 36 + u64EncodedLength ap.payload.length
    + ap.payload.length
  match ap.signature with
  | none => some base
  | some (si, sv) =>
    (si.encodedLength).map (fun l =>
      base + l + u64EncodedLength 46 + u64EncodedLength sv.length + sv.length)

/-- packet.rs ApplicationParameters::encode. -/
def ApplicationParameters.encode (ap : ApplicationParameters) :
    Option (List Nat) :=
  let base := u64Encode 36 ++ u64Encode ap.payload.length ++ ap.payload
  match ap.signature with
  | none => some base
  | some (si, sv) => do
    let sib ← si.encode
    some (base ++ sib ++ u64Encode 46 ++ u64Encode sv.length ++ sv)

/-- packet.rs Interest; unknownTlvs is the array of seven preserved spans. -/
structure Interest where
  name : NameInner
  canBePrefix : Bool
  mustBeFresh : Bool
  forwardingHint : Option (List Nat)
  nonce : Option Nonce4
  interestLifetime : Option Nat
  hopLimit : Option Nat
  applicationParameters : Option ApplicationParameters
  unknownTlvs : List (List Nat)
deriving Repr

/-- packet.rs Interest::try_decode known type list. -/
def known7 : List Nat := [33, 18, 30, 10, 12, 34, 36]

/-- The mutable locals of the Interest::try_decode loop, passed explicitly. -/
structure InterestAcc where
  cbp : Bool
  mbf : Bool
  fh : Option (List Nat)
  nonce : Option Nonce4
  lifetime : Option Nat
  hop : Option Nat
  appParams : Option ApplicationParameters
  ranges : List (Nat × Nat)
  minKnown : Nat

/-- The per-index update of a known TLV in Interest::try_decode (the nonce
conversion requires exactly four bytes, the hop limit is cast to u8). -/
def interestSetKnown (acc : InterestAcc) (idx : Nat) (tlv : TLVv) :
    Option InterestAcc :=
  match idx with
  | 0 => some { acc with cbp := true }
  | 1 => some { acc with mbf := true }
  | 2 => some { acc with fh := some tlv.val }
  | 3 =>
    match tlv.val with
    | [a, b, c, d] => some { acc with nonce := some (Nonce4.mk a b c d) }
    | _ => none
  | 4 => (tlv.valAsU64).map (fun v => { acc with lifetime := some v })
  | 5 => (tlv.valAsU64).map (fun v => { acc with hop := some (v % 256) })
  | _ =>
    (ApplicationParameters.tryDecode tlv.val).map
      (fun ap => { acc with appParams := some ap })

/-- The while loop of Interest::try_decode: known TLVs in non-decreasing
known order, unknown non-critical TLVs accumulated into the range slot of
the current position. -/
def interestLoop (inner : List Nat) : Nat → Nat → InterestAcc →
    Option InterestAcc
  | fuel + 1, offset, acc =>
    if offset < inner.length then
      match tlvTryDecode (inner.drop offset) with
      | .error _ => none
      | .ok (tlv, tlvLen) =>
        match List.findIdx? (fun x => x = tlv.typ) known7 with
        | some idx =>
          if idx < acc.minKnown then none
          else
            match interestSetKnown acc idx tlv with
            | none => none
            | some acc2 =>
              interestLoop inner fuel (offset + tlvLen) { acc2 with minKnown := idx }
        | none =>
          if tlv.typeIsCritical then none
          else
            let r := acc.ranges.getD acc.minKnown (0, 0)
            let ranges2 :=
              if r = (0, 0) then acc.ranges.set acc.minKnown (offset, offset + tlvLen)
              else acc.ranges.set acc.minKnown (r.1, r.2 + tlvLen)
            interestLoop inner fuel (offset + tlvLen) { acc with ranges := ranges2 }
    else some acc
  | 0, _, _ => none

/-- The slice inner_bytes[b..e] of a stored unknown range (always in range
when produced by the decode loop). -/
def sliceRange (bytes : List Nat) (r : Nat × Nat) : List Nat :=
  (bytes.take r.2).drop r.1

/-- packet.rs Interest::try_decode. -/
def Interest.tryDecode (inner : List Nat) : Option Interest :=
  match tlvTryDecode inner with
  | .error _ => none
  | .ok (nameTlv, nameLen) =>
    if nameTlv.typ = 7 then
      match nameTryDecodeFromInner nameTlv.val with
      | none => none
      | some name =>
        match interestLoop inner (inner.length + 1) nameLen
            (InterestAcc.mk false false none none none none none
              (List.replicate 7 (0, 0)) 0) with
        | none => none
        | some acc =>
          some (Interest.mk name acc.cbp acc.mbf acc.fh acc.nonce acc.lifetime
            acc.hop acc.appParams (acc.ranges.map (sliceRange inner)))
    else none

/-- packet.rs Interest::encoded_length: the sum of the name, the seven
unknown spans and the present optional fields, wrapped in the outer type 5
and length overhead. The interest lifetime is counted without an inner
length field and the hop limit as one length byte plus one value byte,
exactly as in the source. -/
def Interest.encodedLength (i : Interest) : Option Nat := do
  let nl ← i.name.encodedLength
  let apl ← match i.applicationParameters with
    | none => some 0
    | some ap => ap.encodedLength
  let u := fun (k : Nat) => (i.unknownTlvs.getD k []).length
  let len := nl + u 0
    + (if i.canBePrefix then u64EncodedLength 33 + u64EncodedLength 0 else 0)
    + u 1
    + (if i.mustBeFresh then u64EncodedLength 18 + u64EncodedLength 0 else 0)
    + u 2
    + (match i.forwardingHint with
       | none => 0
       | some fh => u64EncodedLength 30 + u64EncodedLength fh.length + fh.length)
    + u 3
    + (match i.nonce with
       | none => 0
       | some _ => u64EncodedLength 10 + u64EncodedLength 4 + 4)
    + u 4
    + (match i.interestLifetime with
       | none => 0
       | some lt => u64EncodedLength 12 + u64EncodedLength lt)
    + u 5
    + (match i.hopLimit with
       | none => 0
       | some _ => u64EncodedLength 34 + 1 + 1)
    + u 6
    + apl
  some (u64EncodedLength 5 + u64EncodedLength len + len)

/-- packet.rs Interest::encode: the source takes len = self.encoded_length()
(the full length, outer fields included) and writes it as the outer length
field before the inner fields. -/
def Interest.encode (i : Interest) : Option (List Nat) := do
  let len ← i.encodedLength
  let nb ← i.name.encode
  let apb ← match i.applicationParameters with
    | none => some []
    | some ap => ap.encode
  let u := fun (k : Nat) => i.unknownTlvs.getD k []
  some (u64Encode 5 ++ u64Encode len ++ nb ++ u 0
    ++ (if i.canBePrefix then u64Encode 33 ++ u64Encode 0 else [])
    ++ u 1
    ++ (if i.mustBeFresh then u64Encode 18 ++ u64Encode 0 else [])
    ++ u 2
    ++ (match i.forwardingHint with
        | none => []
        | some fh => u64Encode 30 ++ u64Encode fh.length ++ fh)
    ++ u 3
    ++ (match i.nonce with
        | none => []
        | some n => u64Encode 10 ++ u64Encode 4 ++ [n.b0, n.b1, n.b2, n.b3])
    ++ u 4
    ++ (match i.interestLifetime with
        | none => []
        | some lt => u64Encode 12 ++ u64Encode lt)
    ++ u 5
    ++ (match i.hopLimit with
        | none => []
        | some h => u64Encode 34 ++ u64Encode 1 ++ u64Encode h)
    ++ u 6 ++ apb)

/-- C1 failing input: a well-formed Interest packet with the single name
component "A" and nothing else. -/
def c1Bytes : List Nat := [5, 5, 7, 3, 8, 1, 65]

/-! tables.rs: the flat Tables used by forwarder.rs (N=32 name bytes,
4 FIB and 4 PIT slots per entry, 2 nonce slots). Fixed arrays are lists of
the fixed length together with their length counters; entry chains are
index links into the entries vector; the scratch buffers face_map and
face_scratch are cleared before each use and so are not part of the state.
While loops carry fuel; running out of fuel or an out-of-range index
(a Rust panic) is none. -/

/-- tables.rs PitEntry (P=4, two nonce slots) with its defaults. -/
structure FPitEntry where
  deadline : Nat
  nextTransmission : Nat
  replyTo : List Nat
  cbp : List Bool
  nonces : List Nonce4
  noncesLen : Nat
  pitsLen : Nat
deriving DecidableEq, Repr

/-- tables.rs impl Default for PitEntry. -/
def FPitEntry.default : FPitEntry :=
  FPitEntry.mk 0 U64MAX (List.replicate 4 4294967295) (List.replicate 4 false)
    (List.replicate 2 (Nonce4.mk 0 0 0 0)) 0 0

/-- tables.rs TableEntry; name holds exactly the name_len stored bytes. -/
structure FTableEntry where
  name : List Nat
  fibs : List Nat
  pit : FPitEntry
  nameType : Nat
  fibsLen : Nat
  isContinued : Bool
  isUnused : Bool
  nextSibling : Option Nat
  firstChild : Option Nat
deriving DecidableEq, Repr

/-- tables.rs TableEntry::new: store up to 32 name bytes, return the rest. -/
def FTableEntry.new (nameType : Nat) (nameBytes : List Nat) :
    FTableEntry × Option (List Nat) :=
  let nameLen := min nameBytes.length 32
  let isContinued := 32 < nameBytes.length
  (FTableEntry.mk (nameBytes.take nameLen) (List.replicate 4 4294967295)
     FPitEntry.default nameType 0 isContinued false none none,
   if isContinued then some (nameBytes.drop nameLen) else none)

/-- tables.rs impl Default for TableEntry. -/
def FTableEntry.default : FTableEntry := (FTableEntry.new 8 []).1

/-- tables.rs Entries::next_insertion_index; the NonZeroU32 unwrap panics
on index zero (impossible while the root is in use). -/
def nextInsertionIndex (entries : List FTableEntry) : Option Nat :=
  match List.findIdx? (fun e => e.isUnused) entries with
  | some idx => if idx = 0 then none else some idx
  | none => if entries.length = 0 then none else some entries.length

/-- tables.rs Entries::insert. -/
def entriesInsert (entries : List FTableEntry) (e : FTableEntry) (index : Nat) :
    List FTableEntry :=
  if index = entries.length then entries ++ [e] else entries.set index e

/-- tables.rs ParentOrSibling. -/
inductive ParentOrSibling where
  | parent (idx : Option Nat)
  | sibling (idx : Nat)
deriving Repr

/-- Outcome of the matching while loop inside
get_or_create_nonroot_entry_index_for_name for one component: either a
descent into a matched entry's child, or chain exhaustion. -/
inductive FMatchRes where
  | descend (target : ParentOrSibling) (child : Option Nat)
  | exhausted (target : ParentOrSibling)
deriving Repr

/-- The inner while loop of get_or_create_nonroot_entry_index_for_name:
walk the sibling chain matching the component type and (possibly split)
name bytes. -/
def matchLoop (entries : List FTableEntry) (typ : Nat) (compBytes : List Nat) :
    Nat → Option Nat → ParentOrSibling → List Nat → Bool → Option FMatchRes
  | 0, _, _, _, _ => none
  | _ + 1, none, target, _, _ => some (.exhausted target)
  | fuel + 1, some cc, _, remaining, unmatched =>
    match entries[cc]? with
    | none => none
    | some entry =>
      let len := min remaining.length entry.name.length
      if ¬ unmatched ∧ entry.nameType = typ ∧ entry.name = remaining.take len then
        if entry.isContinued then
          matchLoop entries typ compBytes fuel entry.nextSibling (.sibling cc)
            (remaining.drop len) unmatched
        else some (.descend (.parent (some cc)) entry.firstChild)
      else
        if entry.isContinued then
          matchLoop entries typ compBytes fuel entry.nextSibling (.sibling cc)
            remaining true
        else
          matchLoop entries typ compBytes fuel entry.nextSibling (.sibling cc)
            compBytes false

/-- Set the link named by a ParentOrSibling target (root first_child,
parent first_child, or sibling next_sibling) to the given index. -/
def setLink (entries : List FTableEntry) (target : ParentOrSibling) (index : Nat) :
    Option (List FTableEntry) :=
  match target with
  | .parent none =>
    match entries[0]? with
    | none => none
    | some r => some (entries.set 0 { r with firstChild := some index })
  | .parent (some e) =>
    match entries[e]? with
    | none => none
    | some r => some (entries.set e { r with firstChild := some index })
  | .sibling e =>
    match entries[e]? with
    | none => none
    | some r => some (entries.set e { r with nextSibling := some index })

/-- The creation loop of get_or_create_nonroot_entry_index_for_name:
split the component bytes into 32-byte entries chained as continuations;
returns the updated entries and the last inserted index (the final
Parent(Some(index)) target). -/
def createChain (entries : List FTableEntry) (typ : Nat) :
    Nat → List Nat → ParentOrSibling → Option (List FTableEntry × Nat)
  | 0, _, _ => none
  | fuel + 1, remainingName, target =>
    let er := FTableEntry.new typ remainingName
    match nextInsertionIndex entries with
    | none => none
    | some index =>
      let entries1 := entriesInsert entries er.1 index
      match setLink entries1 target index with
      | none => none
      | some entries2 =>
        match er.2 with
        | some r => createChain entries2 typ fuel r (.sibling index)
        | none => some (entries2, index)

/-- The outer for loop of get_or_create_nonroot_entry_index_for_name over
the name components, with the target and current node carried across
components as in the source. -/
def getOrCreateWalk : List FTableEntry → List NameComponent → Option Nat →
    ParentOrSibling → Bool → Option (List FTableEntry × ParentOrSibling × Bool)
  | entries, [], _, target, isNew => some (entries, target, isNew)
  | entries, c :: rest, current, target, isNew =>
    match matchLoop entries c.typ c.bytes (entries.length + 1) current target
        c.bytes false with
    | none => none
    | some (.descend target2 child) => getOrCreateWalk entries rest child target2 isNew
    | some (.exhausted target2) =>
      match createChain entries c.typ (c.bytes.length + 2) c.bytes target2 with
      | none => none
      | some (entries2, index) =>
        getOrCreateWalk entries2 rest none (.parent (some index)) true

/-- tables.rs Entries::get_or_create_nonroot_entry_index_for_name; a final
target other than Parent(Some(_)) is the source's unreachable panic. -/
def getOrCreateNonroot (entries : List FTableEntry) (comps : List NameComponent) :
    Option (List FTableEntry × Nat × Bool) :=
  match entries[0]? with
  | none => none
  | some root =>
    match getOrCreateWalk entries comps root.firstChild (.parent none) false with
    | none => none
    | some (entries2, .parent (some index), isNew) => some (entries2, index, isNew)
    | some _ => none

/-- tables.rs Tables (scratch buffers omitted, see above). -/
structure FTables where
  entries : List FTableEntry
  timeOfLastUpdate : Nat
  eventsSinceLastUpdate : Nat
  nextNonce : Nat
deriving Repr

/-- tables.rs Tables::new. -/
def FTables.new : FTables := FTables.mk [FTableEntry.default] 0 0 5318

/-- tables.rs Tables::next_nonce: a djb2 step on u32 (wrapping arithmetic
as mod 2^32) keyed by the entry count and event counter, returning the
big-endian nonce bytes. -/
def FTables.nextNonceStep (t : FTables) : FTables × Nonce4 :=
  let key := ((t.entries.length + 1) % 2 ^ 32 * 7 % 2 ^ 32
    + t.eventsSinceLastUpdate % 2 ^ 32) % 2 ^ 32
  let nn := ((t.nextNonce * 33) % 2 ^ 32) ^^^ key
  ({ t with nextNonce := nn },
   Nonce4.mk (nn / 2 ^ 24 % 256) (nn / 2 ^ 16 % 256) (nn / 2 ^ 8 % 256) (nn % 256))

/-- The FIB insertion loop of tables.rs Tables::register_prefix, walking
the continuation chain from the given entry index; as in the source, the
overflow branch sets the current entry's fibs_len to one. -/
def fibLoop (entries : List FTableEntry) (face insertionIndex : Nat) :
    Nat → Nat → Option (List FTableEntry)
  | 0, _ => none
  | fuel + 1, idx =>
    match entries[idx]? with
    | none => none
    | some entry =>
      if (entry.fibs.take entry.fibsLen).contains face then some entries
      else if entry.fibsLen + 1 < 4 then
        some (entries.set idx { entry with
          fibs := entry.fibs.set entry.fibsLen face,
          fibsLen := entry.fibsLen + 1 })
      else if entry.isContinued then
        match entry.nextSibling with
        | none => none
        | some nxt => fibLoop entries face insertionIndex fuel nxt
      else
        let newEntry := { FTableEntry.default with
          fibs := FTableEntry.default.fibs.set 0 face,
          isContinued := false,
          nextSibling := entry.nextSibling }
        let entries1 := entries.set idx { entry with
          fibsLen := 1, isContinued := true, nextSibling := some insertionIndex }
        some (entriesInsert entries1 newEntry insertionIndex)

/-- tables.rs Tables::register_prefix. -/
def FTables.registerPrefixF (t : FTables) (comps : List NameComponent)
    (face : Nat) : Option FTables :=
  if comps.length = 0 then
    match nextInsertionIndex t.entries with
    | none => none
    | some ii =>
      (fibLoop t.entries face ii (t.entries.length + 1) 0).map
        (fun e => { t with entries := e })
  else
    match getOrCreateNonroot t.entries comps with
    | none => none
    | some (entries1, idx, _) =>
      match nextInsertionIndex entries1 with
      | none => none
      | some ii =>
        (fibLoop entries1 face ii (entries1.length + 1) idx).map
          (fun e => { t with entries := e })

/-- tables.rs PrefixRegistrationResult. -/
inductive FRegResult where
  | newRegistration
  | previousFromSelf
  | previousFromOthers (shouldRetransmit : Bool)
  | deadNonce
  | invalidName
deriving DecidableEq, Repr

/-- The dead-nonce scan loop of Tables::register_interest along the
continuation chain: true means the nonce was already recorded. -/
def nonceScanLoop (entries : List FTableEntry) (n : Nonce4) :
    Nat → Nat → Option Bool
  | 0, _ => none
  | fuel + 1, idx =>
    match entries[idx]? with
    | none => none
    | some e =>
      if (e.pit.nonces.take e.pit.noncesLen).contains n then some true
      else if e.isContinued then
        match e.nextSibling with
        | none => none
        | some nxt => nonceScanLoop entries n fuel nxt
      else some false

/-- The nonce save loop of Tables::register_interest: append into a free
slot along the chain, otherwise shift out the earliest nonce of the last
chain entry. -/
def nonceSaveLoop (entries : List FTableEntry) (n : Nonce4) :
    Nat → Nat → Option (List FTableEntry)
  | 0, _ => none
  | fuel + 1, idx =>
    match entries[idx]? with
    | none => none
    | some e =>
      if e.pit.noncesLen < e.pit.nonces.length then
        some (entries.set idx { e with pit := { e.pit with
          nonces := e.pit.nonces.set e.pit.noncesLen n,
          noncesLen := e.pit.noncesLen + 1 } })
      else if e.isContinued then
        match e.nextSibling with
        | none => none
        | some nxt => nonceSaveLoop entries n fuel nxt
      else
        if e.pit.noncesLen = 0 then none
        else
          some (entries.set idx { e with pit := { e.pit with
            nonces := ((e.pit.nonces.drop 1).take (e.pit.noncesLen - 1)) ++ [n]
              ++ e.pit.nonces.drop e.pit.noncesLen } })

/-- The nonce handling phase of Tables::register_interest: inl means the
DeadNonce early return. -/
def noncePhase (entries : List FTableEntry) (entryIndex : Nat) :
    Option Nonce4 → Option (Sum Unit (List FTableEntry))
  | none => some (.inr entries)
  | some n =>
    match nonceScanLoop entries n (entries.length + 1) entryIndex with
    | none => none
    | some true => some (.inl ())
    | some false =>
      (nonceSaveLoop entries n (entries.length + 1) entryIndex).map Sum.inr

/-- The reply_to scan loop of Tables::register_interest: inl returns the
PreviousFromSelf update (the matching slot's can_be_prefix or-ed), inr
carries the last chain index and the others_have_asked flag into the PIT
insertion loop. -/
def replyScanLoop (entries : List FTableEntry) (replyTo : Nat) (cbpFlag : Bool) :
    Nat → Nat → Bool → Option (Sum (List FTableEntry) (Nat × Bool))
  | 0, _, _ => none
  | fuel + 1, idx, others =>
    match entries[idx]? with
    | none => none
    | some e =>
      match List.findIdx? (fun f => f = replyTo) (e.pit.replyTo.take e.pit.pitsLen) with
      | some fidx =>
        some (.inl (entries.set idx { e with pit := { e.pit with
          cbp := e.pit.cbp.set fidx ((e.pit.cbp.getD fidx false) || cbpFlag) } }))
      | none =>
        let others2 := others || decide (0 < e.pit.pitsLen)
        if e.isContinued then
          match e.nextSibling with
          | none => none
          | some nxt => replyScanLoop entries replyTo cbpFlag fuel nxt others2
        else some (.inr (idx, others2))

/-- The PIT insertion loop of Tables::register_interest; as in the source,
the in-place insertion indexes reply_to and can_be_prefix with fibs_len. -/
def pitAddLoop (entries : List FTableEntry) (replyTo : Nat) (cbpFlag : Bool)
    (nonce : Option Nonce4) (deadline now retrans insertionIndex : Nat) :
    Nat → Nat → Option (List FTableEntry)
  | 0, _ => none
  | fuel + 1, idx =>
    match entries[idx]? with
    | none => none
    | some e =>
      if e.pit.pitsLen + 1 < 4 then
        some (entries.set idx { e with pit := { e.pit with
          replyTo := e.pit.replyTo.set e.fibsLen replyTo,
          cbp := e.pit.cbp.set e.fibsLen cbpFlag,
          pitsLen := e.pit.pitsLen + 1 } })
      else if e.isContinued then
        match e.nextSibling with
        | none => none
        | some nxt =>
          pitAddLoop entries replyTo cbpFlag nonce deadline now retrans
            insertionIndex fuel nxt
      else
        let pit0 := { FPitEntry.default with
          replyTo := FPitEntry.default.replyTo.set 0 replyTo,
          cbp := FPitEntry.default.cbp.set 0 cbpFlag,
          pitsLen := 1 }
        let pit1 := match nonce with
          | some n => { pit0 with nonces := pit0.nonces.set 0 n, noncesLen := 1 }
          | none => pit0
        let pit2 := { pit1 with
          deadline := deadline,
          nextTransmission := tsAdding now retrans }
        let newEntry := { FTableEntry.default with
          pit := pit2, isContinued := false, nextSibling := e.nextSibling }
        let entries1 := entries.set idx { e with
          isContinued := true, nextSibling := some insertionIndex }
        some (entriesInsert entries1 newEntry insertionIndex)

/-- tables.rs Tables::register_interest. The Name argument is materialized
as its component list (the source iterates name.components() and compares
component_count() with zero, which agree on decoded names). -/
def FTables.registerInterest (t : FTables) (comps : List NameComponent)
    (cbpFlag : Bool) (replyTo now retrans deadline : Nat)
    (nonce : Option Nonce4) : Option (FTables × FRegResult) :=
  if comps.length = 0 then some (t, .invalidName)
  else
    let t1 := { t with eventsSinceLastUpdate := t.eventsSinceLastUpdate + 1 }
    match getOrCreateNonroot t1.entries comps with
    | none => none
    | some (entriesA, entryIndex, isNew) =>
      match nextInsertionIndex entriesA with
      | none => none
      | some insertionIndex =>
        match entriesA[entryIndex]? with
        | none => none
        | some entry =>
          if isNew ∨ (¬ entry.isContinued ∧ entry.pit.pitsLen = 0) then
            let pit0 := { entry.pit with
              replyTo := entry.pit.replyTo.set 0 replyTo,
              cbp := entry.pit.cbp.set 0 cbpFlag,
              pitsLen := 1 }
            let pit1 := match nonce with
              | some n => { pit0 with nonces := pit0.nonces.set 0 n, noncesLen := 1 }
              | none => pit0
            let pit2 := { pit1 with
              deadline := deadline,
              nextTransmission := max now (tsAdding entry.pit.nextTransmission retrans) }
            some ({ t1 with entries := entriesA.set entryIndex { entry with pit := pit2 } },
              .newRegistration)
          else
            match noncePhase entriesA entryIndex nonce with
            | none => none
            | some (.inl _) => some (t1, .deadNonce)
            | some (.inr entriesB) =>
              match entriesB[entryIndex]? with
              | none => none
              | some entryB =>
                let shouldRetransmit := decide (entryB.pit.nextTransmission ≤ now)
                let entriesC := entriesB.set entryIndex { entryB with pit :=
                  { entryB.pit with
                    nextTransmission := max now (tsAdding entryB.pit.nextTransmission retrans),
                    deadline := max entryB.pit.deadline deadline } }
                match replyScanLoop entriesC replyTo cbpFlag (entriesC.length + 1)
                    entryIndex false with
                | none => none
                | some (.inl entriesD) =>
                  some ({ t1 with entries := entriesD }, .previousFromSelf)
                | some (.inr (lastIdx, others)) =>
                  match pitAddLoop entriesC replyTo cbpFlag nonce deadline now retrans
                      insertionIndex (entriesC.length + 1) lastIdx with
                  | none => none
                  | some entriesD =>
                    some ({ t1 with entries := entriesD },
                      if others then .previousFromOthers shouldRetransmit
                      else .newRegistration)

/-- tables.rs EntryIterator state. -/
structure EntryIterState where
  entryIndex : Option Nat
  depth : Nat
  comps : List NameComponent
deriving Repr

/-- The sibling scan of EntryIterator::next: some none means the iterator
is finished, some (some _) a matched entry with its first child. -/
def entryIterSiblingScan (entries : List FTableEntry) (c : NameComponent) :
    Nat → Option Nat → Option (Option (Nat × Option Nat))
  | 0, _ => none
  | _ + 1, none => some none
  | fuel + 1, some idx =>
    match entries[idx]? with
    | none => none
    | some e =>
      if e.nameType = c.typ ∧ e.name = c.bytes then some (some (idx, e.firstChild))
      else entryIterSiblingScan entries c fuel e.nextSibling

/-- tables.rs EntryIterator::next. The depth-zero branch returns the root
marker without ever advancing depth, exactly as in the source, so the
iterator yields the root marker forever. -/
def entryIterNext (entries : List FTableEntry) (s : EntryIterState) :
    Option (Option ((Option Nat × Nat) × EntryIterState)) :=
  if s.depth = 0 then
    match entries[0]? with
    | none => none
    | some root =>
      some (some ((none, s.depth), { s with entryIndex := root.firstChild }))
  else
    match s.comps with
    | [] => some none
    | c :: rest =>
      match entryIterSiblingScan entries c (entries.length + 1) s.entryIndex with
      | none => none
      | some none => some none
      | some (some (idx, child)) =>
        some (some ((some idx, s.depth + 1),
          EntryIterState.mk child (s.depth + 1) rest))

/-- The BTreeMap entry().and_modify(max).or_insert of hops_for_name over
an association list sorted by face. -/
def faceMapUpdate : List (Nat × Nat) → Nat → Nat → List (Nat × Nat)
  | [], face, depth => [(face, depth)]
  | (f, d) :: rest, face, depth =>
    if face < f then (face, depth) :: (f, d) :: rest
    else if face = f then (f, max depth d) :: rest
    else (f, d) :: faceMapUpdate rest face depth

/-- The driving for loop of hops_for_name over the prefix-entry iterator,
collecting FIB faces with their maximal depth, fueled. -/
def hopsCollect (entries : List FTableEntry) :
    Nat → EntryIterState → List (Nat × Nat) → Option (List (Nat × Nat))
  | 0, _, _ => none
  | fuel + 1, s, m =>
    match entryIterNext entries s with
    | none => none
    | some none => some m
    | some (some ((optIdx, depth), s2)) =>
      match optIdx with
      | none => hopsCollect entries fuel s2 m
      | some idx =>
        match entries[idx]? with
        | none => none
        | some e =>
          hopsCollect entries fuel s2
            ((e.fibs.take e.fibsLen).foldl (fun mm f => faceMapUpdate mm f depth) m)

/-- Stable insertion for the descending-by-depth sort of hops_for_name. -/
def insertByDepth (x : Nat × Nat) : List (Nat × Nat) → List (Nat × Nat)
  | [] => [x]
  | y :: rest => if y.2 ≤ x.2 then x :: y :: rest else y :: insertByDepth x rest

/-- The stable sort_by of hops_for_name (descending depth). -/
def sortByDepthDesc : List (Nat × Nat) → List (Nat × Nat)
  | [] => []
  | x :: rest => insertByDepth x (sortByDepthDesc rest)

/-- tables.rs Tables::hops_for_name: drive the prefix-entry iterator (with
fuel covering any terminating behaviour), then order the collected faces
by descending depth. -/
def FTables.hopsForName (t : FTables) (comps : List NameComponent) :
    Option (List Nat) :=
  (hopsCollect t.entries (t.entries.length + comps.length + 2)
      (EntryIterState.mk none 0 comps) []).map
    (fun m => (sortByDepthDesc m).map Prod.fst)

/-- forwarder.rs Forwarder::handle_interest, with the platform clock, the
content-store get (Ok(Some _)/Ok(None)/Err as some (some _)/some none/none)
and the face sends made explicit; the returned list pairs each destination
face with the bytes sent to it. The constants are
DEFAULT_DEADLINE_INCREMENT_MS = 4000 and RETRANSMISSION_PERIOD_MS = 1000. -/
def handleInterest (csGet : NameInner → Bool → Option Nat → Option (Option (List Nat)))
    (t : FTables) (i : Interest) (originalPacket : List Nat) (origin now : Nat) :
    Option (FTables × List (Nat × List Nat)) :=
  if i.name.componentCount = 0 then some (t, [])
  else
    match i.hopLimit with
    | some 0 => some (t, [])
    | _ =>
      let i2 := { i with hopLimit := i.hopLimit.map (fun h => h - 1) }
      let modified0 := i.hopLimit.isSome
      let isLastHop : Bool := match i2.hopLimit with
        | some 0 => true
        | _ => false
      let deadline := match i2.interestLifetime with
        | some ms => tsAdding now ms
        | none => tsAdding now 4000
      let regPhase : Option (FTables × Bool) :=
        if isLastHop then some (t, true)
        else
          match t.registerInterest i2.name.componentsList i2.canBePrefix origin
              now 1000 deadline i2.nonce with
          | none => none
          | some (t1, .newRegistration) => some (t1, true)
          | some (t1, .previousFromSelf) => some (t1, true)
          | some (t1, .previousFromOthers sr) => some (t1, sr)
          | some (t1, .deadNonce) => some (t1, false)
          | some (t1, .invalidName) => some (t1, false)
      match regPhase with
      | none => none
      | some (t1, proceed) =>
        if ¬ proceed then some (t1, [])
        else
          let freshness := if i2.mustBeFresh then some now else none
          match csGet i2.name i2.canBePrefix freshness with
          | some (some retrieved) => some (t1, [(origin, retrieved)])
          | _ =>
            if ¬ isLastHop then
              let anr : FTables × Interest × Bool :=
                match i2.nonce with
                | none =>
                  let tn := t1.nextNonceStep
                  (tn.1, { i2 with nonce := some tn.2 }, true)
                | some _ => (t1, i2, modified0)
              match (if anr.2.2 then anr.2.1.encode else some originalPacket) with
              | none => none
              | some encodedInterest =>
                match anr.1.hopsForName anr.2.1.name.componentsList with
                | none => none
                | some hops =>
                  some (anr.1,
                    (hops.filter (fun f => f ≠ origin)).map (fun f => (f, encodedInterest)))
            else some (t1, [])

/-- C5 scenario: the inner bytes of a nonce-less Interest with name /A. -/
def c5Inner : List Nat := [7, 3, 8, 1, 65]

/-- C5 scenario: the full nonce-less Interest packet. -/
def c5Bytes : List Nat := [5, 5, 7, 3, 8, 1, 65]

/-- The decoded view of the C5 packet (checked against try_decode in the
counterexample theorem). -/
def c5Interest : Interest :=
  Interest.mk (NameInner.buffer [8, 1, 65] 1 1) false false none none none none
    none (List.replicate 7 [])

/-- A cached Data packet used as the content-store hit in C5. -/
def c5Data : List Nat := [6, 3, 0, 0, 0]

/-- C6 scenario: the inner bytes of an Interest with name /A, nonce
9.9.9.9 and hop limit 2. -/
def c6Inner : List Nat := [7, 3, 8, 1, 65, 10, 4, 9, 9, 9, 9, 34, 1, 2]

/-- C6 scenario: the full Interest packet with a hop-limit field. -/
def c6Bytes : List Nat := [5, 14, 7, 3, 8, 1, 65, 10, 4, 9, 9, 9, 9, 34, 1, 2]

/-- The decoded view of the C6 packet (checked against try_decode in the
claim theorem). -/
def c6Interest : Interest :=
  Interest.mk (NameInner.buffer [8, 1, 65] 1 1) false false none
    (some (Nonce4.mk 9 9 9 9)) none (some 2) none (List.replicate 7 [])

/-- C6 scenario: flat tables with a FIB registration of /A to face 2. -/
def c6Tables : Option FTables :=
  FTables.new.registerPrefixF [NameComponent.mk 8 [65]] 2

end Reto

namespace Reto

/-- C8 (varint round-trip and non-minimal rejection): for every u in
0..=2^64-1, encoding u as a varint and decoding the result yields u with the
consumed length equal to the encoded length; and the decoder rejects every
253/254/255-discriminated form whose following big-endian integer does not
exceed the next-smaller encoding maximum with NonMinimalIntegerEncoding. -/
theorem c8_varint_roundtrip_and_nonminimal_rejection :
    (∀ u : Nat, u < 2 ^ 64 →
      varintTryDecode (varintEncode u) = .ok (u, (varintEncode u).length)) ∧
    (∀ b1 b2 rest, u16FromBe b1 b2 ≤ 252 →
      varintTryDecode (253 :: b1 :: b2 :: rest) = .error .nonMinimalIntegerEncoding) ∧
    (∀ b1 b2 b3 b4 rest, u32FromBe b1 b2 b3 b4 ≤ 65535 →
      varintTryDecode (254 :: b1 :: b2 :: b3 :: b4 :: rest) =
        .error .nonMinimalIntegerEncoding) ∧
    (∀ b1 b2 b3 b4 b5 b6 b7 b8 rest,
      u64FromBeList [b1, b2, b3, b4, b5, b6, b7, b8] ≤ 4294967295 →
      varintTryDecode (255 :: b1 :: b2 :: b3 :: b4 :: b5 :: b6 :: b7 :: b8 :: rest) =
        .error .nonMinimalIntegerEncoding) := by
  refine ⟨?_, ?_, ?_, ?_⟩
  · intro u hu
    by_cases h1 : u ≤ 252
    · simp [varintEncode, varintTryDecode, h1]
    · by_cases h2 : u ≤ 65535
      · have hm : u % 2 ^ 16 = u := Nat.mod_eq_of_lt (by omega)
        have hval : u16FromBe (u % 2 ^ 16 / 256 % 256) (u % 2 ^ 16 % 256) = u := by
          simp only [hm, u16FromBe]; omega
        simp only [varintEncode, varintTryDecode, h1, h2, if_false, if_true, u16ToBe,
          List.length_cons, List.length_nil]
        rw [if_neg (by omega), hval, if_pos (by omega)]
      · by_cases h3 : u ≤ 4294967295
        · have hm : u % 2 ^ 32 = u := Nat.mod_eq_of_lt (by omega)
          have hval : u32FromBe (u % 2 ^ 32 / 2 ^ 24 % 256) (u % 2 ^ 32 / 2 ^ 16 % 256)
              (u % 2 ^ 32 / 2 ^ 8 % 256) (u % 2 ^ 32 % 256) = u := by
            simp only [hm, u32FromBe]; omega
          simp only [varintEncode, varintTryDecode, h1, h2, h3, if_false, if_true, u32ToBe,
            List.length_cons, List.length_nil]
          rw [if_neg (by omega), if_neg (by omega), hval, if_pos (by omega)]
        · have hm : u % 2 ^ 64 = u := Nat.mod_eq_of_lt (by omega)
          have hval : u64FromBeList [u % 2 ^ 64 / 2 ^ 56 % 256, u % 2 ^ 64 / 2 ^ 48 % 256,
              u % 2 ^ 64 / 2 ^ 40 % 256, u % 2 ^ 64 / 2 ^ 32 % 256, u % 2 ^ 64 / 2 ^ 24 % 256,
              u % 2 ^ 64 / 2 ^ 16 % 256, u % 2 ^ 64 / 2 ^ 8 % 256, u % 2 ^ 64 % 256] = u := by
            simp only [hm, u64FromBeList, List.foldl]; omega
          simp only [varintEncode, varintTryDecode, h1, h2, h3, if_false, if_true, u64ToBe,
            List.length_cons, List.length_nil]
          rw [if_neg (by omega), if_neg (by omega), if_neg (by omega), hval,
            if_pos (by omega)]
  · intro b1 b2 rest h
    simp only [varintTryDecode]
    rw [if_neg (by omega), if_pos trivial, if_neg (by omega)]
  · intro b1 b2 b3 b4 rest h
    simp only [varintTryDecode]
    rw [if_neg (by omega), if_neg (by decide), if_pos trivial, if_neg (by omega)]
  · intro b1 b2 b3 b4 b5 b6 b7 b8 rest h
    simp only [varintTryDecode]
    rw [if_neg (by omega), if_neg (by omega), if_neg (by omega), if_neg (by omega)]

/-- Witness for C8 at concrete inputs. -/
theorem c8_witness :
    varintTryDecode (varintEncode 70000) = .ok (70000, 5) ∧
    varintTryDecode [253, 0, 7] = .error .nonMinimalIntegerEncoding := by
  constructor
  · have h := c8_varint_roundtrip_and_nonminimal_rejection.1 70000 (by norm_num)
    simpa [varintEncode, u32ToBe] using h
  · exact c8_varint_roundtrip_and_nonminimal_rejection.2.1 0 7 [] (by decide)

/-- compute_iter over a chain of appended batches accumulates the batch
sizes into the free component count. -/
theorem computeIterAux_chainAdd (bs : List (List NameComponent)) :
    ∀ (n : NameInner) (ib : Option (List Nat)) (ic fc : Nat),
    computeIterAux (chainAdd n bs) ib ic fc = computeIterAux n ib ic (fc + totalLen bs) := by
  induction bs with
  | nil => intro n ib ic fc; simp [chainAdd, totalLen]
  | cons b rest ih =>
    intro n ib ic fc
    simp only [chainAdd, NameInner.addingComponents]
    rw [ih]
    simp only [computeIterAux]
    congr 1
    simp only [totalLen, List.map_cons, List.sum_cons]
    omega

/-- The free-component walk of the iterator over a chain selects, counting
k downward, the flattened batch component at index total - k; below the
chain it recurses into the core with the chain total subtracted. -/
theorem findFree_chainAdd (bs : List (List NameComponent)) :
    ∀ (n : NameInner) (k : Nat), 1 ≤ k →
    findFreeComponent (chainAdd n bs) k =
      if k ≤ totalLen bs then bs.flatten[totalLen bs - k]?
      else findFreeComponent n (k - totalLen bs) := by
  induction bs with
  | nil =>
    intro n k hk
    have hn : ¬ k ≤ totalLen ([] : List (List NameComponent)) := by
      simp [totalLen]; omega
    rw [chainAdd, if_neg hn]
    simp [totalLen]
  | cons b rest ih =>
    intro n k hk
    have ht : totalLen (b :: rest) = b.length + totalLen rest := by
      simp [totalLen]
    simp only [chainAdd, NameInner.addingComponents, ht, List.flatten_cons]
    rw [ih _ k hk]
    by_cases h1 : k ≤ totalLen rest
    · rw [if_pos h1, if_pos (by omega)]
      rw [List.getElem?_append_right (by omega)]
      congr 1
      omega
    · rw [if_neg h1]
      simp only [findFreeComponent]
      by_cases h2 : b.length < k - totalLen rest
      · rw [if_pos h2, if_neg (by omega)]
        congr 1
        omega
      · rw [if_neg h2, if_pos (by omega)]
        rw [List.getElem?_append_left (by omega)]
        congr 1
        omega

/-- One successful iterator step prepends its component to the run. -/
theorem iterRun_cons (fuel : Nat) (it : NameIter) (c : NameComponent) (it2 : NameIter)
    (h : iterNext it = some (c, it2)) :
    iterRun (fuel + 1) it = c :: iterRun fuel it2 := by
  rw [iterRun, h]

/-- Driving the iterator through its free phase (buffer exhausted) yields
the flattened batches, k components at a time from the front. -/
theorem iterRun_free (bs : List (List NameComponent)) (n : NameInner) :
    ∀ (k : Nat) (bo : Option (List Nat × Nat)), k ≤ totalLen bs →
    iterRun k { innermostBytes := bo, innermostRemaining := 0, freeComponents := k,
                name := chainAdd n bs } =
      bs.flatten.drop (totalLen bs - k) := by
  have hlen : bs.flatten.length = totalLen bs := by
    simp [totalLen, List.length_flatten]
  intro k
  induction k with
  | zero =>
    intro bo _
    rw [iterRun, Nat.sub_zero, ← hlen, List.drop_length]
  | succ k ihk =>
    intro bo hk
    have hidx : totalLen bs - (k + 1) < bs.flatten.length := by rw [hlen]; omega
    have hfind : findFreeComponent (chainAdd n bs) (k + 1) =
        some (bs.flatten[totalLen bs - (k + 1)]) := by
      rw [findFree_chainAdd bs n (k + 1) (by omega), if_pos hk,
        List.getElem?_eq_getElem hidx]
    have hnext : iterNext
        { innermostBytes := bo, innermostRemaining := 0, freeComponents := k + 1,
          name := chainAdd n bs } =
        some (bs.flatten[totalLen bs - (k + 1)],
          { innermostBytes := none, innermostRemaining := 0, freeComponents := k,
            name := chainAdd n bs }) := by
      simp [iterNext, hfind]
    rw [iterRun_cons k _ _ _ hnext]
    rw [ihk none (by omega)]
    have harith : totalLen bs - (k + 1) + 1 = totalLen bs - k := by omega
    rw [List.drop_eq_getElem_cons hidx, harith]

/-- Driving the iterator through a well-formed buffer yields the buffer
components and leaves a free-phase state at some end offset. -/
theorem iterRun_buffer {bytes : List Nat} {off : Nat} {comps : List NameComponent}
    (h : DecodesTo bytes off comps) :
    ∀ (F : Nat) (N : NameInner), ∃ off2,
    iterRun (comps.length + F)
      { innermostBytes := some (bytes, off), innermostRemaining := comps.length,
        freeComponents := F, name := N } =
      comps ++ iterRun F
        { innermostBytes := some (bytes, off2), innermostRemaining := 0,
          freeComponents := F, name := N } := by
  induction h with
  | nil off => intro F N; exact ⟨off, by simp⟩
  | cons off tlv len cs hdec htyp hrest ih =>
    intro F N
    obtain ⟨off2, ih2⟩ := ih F N
    refine ⟨off2, ?_⟩
    have hfl : (NameComponent.mk tlv.typ tlv.val :: cs).length + F = (cs.length + F) + 1 := by
      simp only [List.length_cons]; omega
    rw [hfl]
    have hnext : iterNext
        { innermostBytes := some (bytes, off),
          innermostRemaining := (NameComponent.mk tlv.typ tlv.val :: cs).length,
          freeComponents := F, name := N } =
        some (NameComponent.mk tlv.typ tlv.val,
          { innermostBytes := some (bytes, off + len), innermostRemaining := cs.length,
            freeComponents := F, name := N }) := by
      simp [iterNext, hdec, htyp]
    rw [iterRun_cons _ _ _ _ hnext, ih2]
    simp

/-- The counting loop of try_decode_from_inner certifies that the buffer
decodes sequentially into some component list of the counted length. -/
theorem nameCountLoop_decodesTo (inner : List Nat) :
    ∀ (fuel off count total : Nat),
    nameCountLoop inner fuel off count = some total →
    ∃ comps, DecodesTo inner off comps ∧ total = count + comps.length := by
  intro fuel
  induction fuel with
  | zero => intro off count total h; simp [nameCountLoop] at h
  | succ fuel ih =>
    intro off count total h
    rw [nameCountLoop] at h
    by_cases h1 : off < inner.length
    · rw [if_pos h1] at h
      cases hdec : tlvTryDecode (inner.drop off) with
      | error e =>
        rw [hdec] at h
        have h3 : (none : Option Nat) = some total := h
        simp at h3
      | ok p =>
        obtain ⟨tlv, len⟩ := p
        rw [hdec] at h
        have h3 : (if tlv.typ ≤ 65535 then nameCountLoop inner fuel (off + len) (count + 1)
            else none) = some total := h
        by_cases h2 : tlv.typ ≤ 65535
        · rw [if_pos h2] at h3
          obtain ⟨comps, hcomps, htot⟩ := ih (off + len) (count + 1) total h3
          refine ⟨NameComponent.mk tlv.typ tlv.val :: comps,
            DecodesTo.cons off tlv len comps hdec h2 hcomps, ?_⟩
          simp only [List.length_cons]; omega
        · rw [if_neg h2] at h3; simp at h3
    · rw [if_neg h1] at h
      by_cases h2 : off = inner.length
      · rw [if_pos h2] at h
        injection h with h3
        exact ⟨[], DecodesTo.nil off, by simp [← h3]⟩
      · rw [if_neg h2] at h; simp at h

/-- Appending one more batch to a chain. -/
theorem chainAdd_append (c : List NameComponent) :
    ∀ (bs : List (List NameComponent)) (n : NameInner),
    chainAdd n (bs ++ [c]) = (chainAdd n bs).addingComponents c := by
  intro bs
  induction bs with
  | nil => intro n; simp [chainAdd]
  | cons b rest ih => intro n; simp only [List.cons_append, chainAdd]; exact ih _

/-- C9 (name extension): over a decoded buffer core, iterating the chain of
appended batches yields the core components followed by the batches in
order; in particular extending any such chain N by a batch C yields
N.components followed by C. -/
theorem c9_name_extension (bytes : List Nat) (n0 : NameInner)
    (h : nameTryDecodeFromInner bytes = some n0) :
    (∀ bs : List (List NameComponent),
      (chainAdd n0 bs).componentsList = n0.componentsList ++ bs.flatten) ∧
    (∀ (bs : List (List NameComponent)) (c : List NameComponent),
      ((chainAdd n0 bs).addingComponents c).componentsList =
        (chainAdd n0 bs).componentsList ++ c) := by
  have hcore : ∀ bs : List (List NameComponent),
      (chainAdd n0 bs).componentsList = n0.componentsList ++ bs.flatten := by
    intro bs
    rw [nameTryDecodeFromInner] at h
    cases hloop : nameCountLoop bytes (bytes.length + 1) 0 0 with
    | none => rw [hloop] at h; exact absurd h (by simp)
    | some count =>
      rw [hloop] at h
      obtain ⟨comps, hcomps, htot⟩ := nameCountLoop_decodesTo bytes _ 0 0 count hloop
      cases count with
      | zero =>
        have hn0 : NameInner.empty = n0 := by injection h
        subst hn0
        have hs : computeIterAux (chainAdd NameInner.empty bs) none 0 0 =
            (none, 0, totalLen bs) := by
          rw [computeIterAux_chainAdd]; simp [computeIterAux]
        simp only [NameInner.componentsList, hs, computeIterAux, Option.map,
          Nat.zero_add, Nat.add_zero, iterRun]
        rw [iterRun_free bs NameInner.empty (totalLen bs) none le_rfl]
        simp
      | succ cm1 =>
        have hn0 : NameInner.buffer bytes (cm1 + 1) (cm1 + 1) = n0 := by injection h
        subst hn0
        have hk : comps.length = cm1 + 1 := by omega
        have hs : computeIterAux (chainAdd (NameInner.buffer bytes (cm1 + 1) (cm1 + 1)) bs)
            none 0 0 = (some bytes, cm1 + 1, totalLen bs) := by
          rw [computeIterAux_chainAdd]; simp [computeIterAux]
        have hs0 : computeIterAux (NameInner.buffer bytes (cm1 + 1) (cm1 + 1)) none 0 0 =
            (some bytes, cm1 + 1, 0) := by simp [computeIterAux]
        simp only [NameInner.componentsList, hs, hs0, Option.map, Nat.add_zero]
        obtain ⟨off2, hb⟩ := iterRun_buffer hcomps (totalLen bs)
          (chainAdd (NameInner.buffer bytes (cm1 + 1) (cm1 + 1)) bs)
        obtain ⟨off3, hb0⟩ := iterRun_buffer hcomps 0
          (NameInner.buffer bytes (cm1 + 1) (cm1 + 1))
        rw [hk] at hb hb0
        rw [Nat.add_zero] at hb0
        rw [hb, hb0]
        rw [iterRun_free bs (NameInner.buffer bytes (cm1 + 1) (cm1 + 1)) (totalLen bs)
          (some (bytes, off2)) le_rfl]
        simp [iterRun]
  refine ⟨hcore, ?_⟩
  intro bs c
  have h1 : (chainAdd n0 bs).addingComponents c = chainAdd n0 (bs ++ [c]) := by
    rw [chainAdd_append]
  rw [h1, hcore (bs ++ [c]), hcore bs]
  simp

/-- Witness for C9 at a concrete decoded core and a concrete batch. -/
theorem c9_witness :
    nameTryDecodeFromInner [8, 1, 65] = some (NameInner.buffer [8, 1, 65] 1 1) ∧
    (chainAdd (NameInner.buffer [8, 1, 65] 1 1) [[NameComponent.mk 9 [66]]]).componentsList =
      (NameInner.buffer [8, 1, 65] 1 1).componentsList ++ [NameComponent.mk 9 [66]] := by
  have hd : nameTryDecodeFromInner [8, 1, 65] = some (NameInner.buffer [8, 1, 65] 1 1) := by
    decide
  exact ⟨hd, by simpa using (c9_name_extension _ _ hd).1 [[NameComponent.mk 9 [66]]]⟩

/-- C2: DeadNonceList::prune retains the entries whose expiry is at most
now and removes the rest. On a list holding one entry expiring at 100,
prune at now = 50 removes the not-yet-expired entry, while prune at
now = 150 and at any arbitrarily late time keeps the expired entry, so the
size never returns to zero. This contradicts the claim that prune removes
exactly the entries whose expiry is past now. -/
theorem c2_dnl_prune_reversed :
    (DNL.prune (DNL.mk [(12345, 100)] 6000) 50).elements = [] ∧
    (DNL.prune (DNL.mk [(12345, 100)] 6000) 150).elements = [(12345, 100)] ∧
    (DNL.prune (DNL.mk [(12345, 100)] 6000) 1000000000000).elements = [(12345, 100)] := by
  refine ⟨rfl, rfl, rfl⟩

/-- C3: with a pending record (face 1, nonce nA) at /A/B, a retransmission
from face 1 with the different nonce nB updates the record to nB but
inserts the incoming nonce nB into the dead nonce list instead of the
prior nonce nA: afterwards the DNL holds exactly the hash of (name, nB)
and not the hash of (name, nA), contradicting the claim (and the source's
own comment) that the prior nonce is moved into the DNL. -/
theorem c3_dnl_receives_incoming_nonce :
    cFirstCall.map (fun r => r.2) = some [2] ∧
    hashNameAndNonce [cmpA, cmpB] nA = some 2444121577453190927 ∧
    hashNameAndNonce [cmpA, cmpB] nB = some 10449257189247240784 ∧
    (cTables1.registerInterestTop [cmpA, cmpB] false none nB 1 200).map
      (fun r => (r.1.dnl.elements,
        (pitAtPath r.1.root [cmpA, cmpB] false).map (fun p => p.pitIn), r.2)) =
      some ([(10449257189247240784, 6200)], some [RPitIn.mk 1 nB], [2]) := by
  refine ⟨rfl, rfl, rfl, rfl⟩

/-- C10: register_interest panics on a reachable state: after registering
the FIB prefix /A/B, an interest for /A walks to the existing node /A with
an empty candidate list and the terminal branch indexes
faces[faces.len() - 1] on an empty vector. The embedded function returns
none, the model of the panic, contradicting the claim of totality. -/
theorem c10_register_interest_panics :
    c10Tables.registerInterestTop [cmpA] false none (Nonce4.mk 0 0 0 0) 1 100 = none := by
  rfl

/-- Selecting the slot just written by setPit yields the written value. -/
theorem RNode.setPit_sel (self : RNode) (cbp : Bool) (p : RPit) :
    (if cbp then (self.setPit cbp p).pitPrefixSlot else (self.setPit cbp p).pitNormal) = p := by
  cases self with
  | mk f pn pp d c =>
    cases cbp <;> simp [RNode.setPit, RNode.pitPrefixSlot, RNode.pitNormal]

/-- The dead nonce list insert is defined whenever the hash is. -/
theorem DNL.insert_isSome (d : DNL) (name : List NameComponent) (nonce : Nonce4)
    (now : Nat) (hh : (hashNameAndNonce name nonce).isSome) :
    ∃ d2, DNL.insert d name nonce now = some d2 := by
  obtain ⟨hv, hhv⟩ := Option.isSome_iff_exists.mp hh
  exact ⟨_, by rw [DNL.insert, hhv]; rfl⟩

/-- The pit_in scan never panics when the (name, nonce) hash is defined. -/
theorem scanPitIn_total (name : List NameComponent) (replyTo : Nat) (nonce : Nonce4)
    (now : Nat) (hh : (hashNameAndNonce name nonce).isSome) :
    ∀ (entries : List RPitIn) (dnl : DNL),
    ∃ e2 d2 l f, scanPitIn entries name replyTo nonce now dnl = some (e2, d2, l, f) := by
  intro entries
  induction entries with
  | nil => intro dnl; exact ⟨[], dnl, false, false, rfl⟩
  | cons ff rest ih =>
    intro dnl
    by_cases h1 : ff.replyTo = replyTo
    · by_cases h2 : ff.lastNonce = nonce
      · obtain ⟨e2, d2, l, f, hs⟩ := ih dnl
        exact ⟨ff :: e2, d2, true, true, by rw [scanPitIn, if_pos h1, if_pos h2, hs]⟩
      · obtain ⟨dnl1, hins⟩ := DNL.insert_isSome dnl name nonce now hh
        obtain ⟨e2, d2, l, f, hs⟩ := ih dnl1
        refine ⟨RPitIn.mk ff.replyTo nonce :: e2, d2, l, true, ?_⟩
        rw [scanPitIn, if_pos h1, if_neg h2, hins]
        show (match scanPitIn rest name replyTo nonce now dnl1 with
          | some (rest2, dnl2, l2, _) =>
            some (RPitIn.mk ff.replyTo nonce :: rest2, dnl2, l2, true)
          | none => none) = _
        rw [hs]
    · obtain ⟨e2, d2, l, f, hs⟩ := ih dnl
      exact ⟨ff :: e2, d2, decide (ff.lastNonce = nonce) || l, f,
        by rw [scanPitIn, if_neg h1, hs]⟩

/-- On success the scan's loop flag holds exactly when some record carries
the incoming nonce, and the found flag certifies a record of the origin
face carrying the incoming nonce in the output. -/
theorem scanPitIn_spec (name : List NameComponent) (replyTo : Nat) (nonce : Nonce4)
    (now : Nat) :
    ∀ (entries : List RPitIn) (dnl : DNL) (e2 : List RPitIn) (d2 : DNL) (l f : Bool),
    scanPitIn entries name replyTo nonce now dnl = some (e2, d2, l, f) →
    ((l = true ↔ ∃ r ∈ entries, r.lastNonce = nonce) ∧
     (f = true → ∃ r ∈ e2, r.replyTo = replyTo ∧ r.lastNonce = nonce)) := by
  intro entries
  induction entries with
  | nil =>
    intro dnl e2 d2 l f h
    rw [scanPitIn] at h
    simp only [Option.some.injEq, Prod.mk.injEq] at h
    obtain ⟨he, hd, hl, hf⟩ := h
    subst he; subst hl; subst hf
    simp
  | cons ff rest ih =>
    intro dnl e2 d2 l f h
    rw [scanPitIn] at h
    by_cases h1 : ff.replyTo = replyTo
    · rw [if_pos h1] at h
      by_cases h2 : ff.lastNonce = nonce
      · rw [if_pos h2] at h
        cases hs : scanPitIn rest name replyTo nonce now dnl with
        | none => rw [hs] at h; exact absurd h (by simp)
        | some q =>
          obtain ⟨rest2, dnl2, l2, f2⟩ := q
          rw [hs] at h
          simp only [Option.some.injEq, Prod.mk.injEq] at h
          obtain ⟨he, hd, hl, hf⟩ := h
          subst he; subst hl; subst hf
          constructor
          · simp only [true_iff]
            exact ⟨ff, by simp, h2⟩
          · intro _
            exact ⟨ff, by simp, h1, h2⟩
      · rw [if_neg h2] at h
        cases hins : DNL.insert dnl name nonce now with
        | none => rw [hins] at h; exact absurd h (by simp)
        | some dnl1 =>
          rw [hins] at h
          have h9 : (match scanPitIn rest name replyTo nonce now dnl1 with
            | some (rest2, dnl2, l2, _) =>
              some (RPitIn.mk ff.replyTo nonce :: rest2, dnl2, l2, true)
            | none => none) = some (e2, d2, l, f) := h
          clear h
          cases hs : scanPitIn rest name replyTo nonce now dnl1 with
          | none => rw [hs] at h9; exact absurd h9 (by simp)
          | some q =>
            obtain ⟨rest2, dnl2, l2, f2⟩ := q
            rw [hs] at h9
            have h := h9
            simp only [Option.some.injEq, Prod.mk.injEq] at h
            obtain ⟨he, hd, hl, hf⟩ := h
            subst he; subst hl; subst hf
            obtain ⟨ihl, ihf⟩ := ih dnl1 rest2 dnl2 l2 f2 hs
            constructor
            · rw [ihl]
              constructor
              · intro ⟨r, hr, hrn⟩; exact ⟨r, by simp [hr], hrn⟩
              · intro ⟨r, hr, hrn⟩
                rcases List.mem_cons.mp hr with hr | hr
                · exact absurd (hr ▸ hrn) h2
                · exact ⟨r, hr, hrn⟩
            · intro _
              exact ⟨RPitIn.mk ff.replyTo nonce, by simp, h1, rfl⟩
    · rw [if_neg h1] at h
      cases hs : scanPitIn rest name replyTo nonce now dnl with
      | none => rw [hs] at h; exact absurd h (by simp)
      | some q =>
        obtain ⟨rest2, dnl2, l2, f2⟩ := q
        rw [hs] at h
        simp only [Option.some.injEq, Prod.mk.injEq] at h
        obtain ⟨he, hd, hl, hf⟩ := h
        subst he; subst hl; subst hf
        obtain ⟨ihl, ihf⟩ := ih dnl rest2 dnl2 l2 f2 hs
        constructor
        · simp only [Bool.or_eq_true, decide_eq_true_eq, ihl]
          constructor
          · intro hor
            rcases hor with hff | ⟨r, hr, hrn⟩
            · exact ⟨ff, by simp, hff⟩
            · exact ⟨r, by simp [hr], hrn⟩
          · intro ⟨r, hr, hrn⟩
            rcases List.mem_cons.mp hr with hr | hr
            · exact Or.inl (hr ▸ hrn)
            · exact Or.inr ⟨r, hr, hrn⟩
        · intro hf2
          obtain ⟨r, hr, hra, hrn⟩ := ihf hf2
          exact ⟨r, by simp [hr], hra, hrn⟩

/-- C7 (retransmission suppression and rotation): at a terminal PIT slot
with pending in-records, a non-looping incoming nonce, and a non-empty
candidate list, register_interest returns no faces when
now < latest-transmission + 8 ms * 2^min(transmission-count, 5); otherwise
it sets latest-transmission to now, increments the (u8) transmission
counter, and returns exactly the candidate at index
len - 1 - (new-count mod len). -/
theorem c7_retransmission_suppression
    (self : RNode) (name : List NameComponent) (cbp : Bool)
    (replyTo now deadline : Nat) (nonce : Nonce4) (dnl : DNL)
    (faces : List (Nat × Nat)) (pit : RPit)
    (hpit : (if cbp then self.pitPrefixSlot else self.pitNormal) = pit)
    (hne : pit.pitIn ≠ [])
    (hnoloop : ∀ r ∈ pit.pitIn, r.lastNonce ≠ nonce)
    (hfaces : faces ≠ [])
    (hh : (hashNameAndNonce name nonce).isSome)
    (hnosat : pit.latestTransmissionTime + 8 * 2 ^ min pit.transmissionCount 5 ≤ U64MAX) :
    (now < pit.latestTransmissionTime + 8 * 2 ^ min pit.transmissionCount 5 →
      ∃ self2 dnl2,
        RNode.registerInterest self name [] cbp replyTo now deadline nonce dnl faces =
          some (self2, dnl2, [])) ∧
    (pit.latestTransmissionTime + 8 * 2 ^ min pit.transmissionCount 5 ≤ now →
      ∃ self2 dnl2 pick,
        faces[faces.length - 1 - ((pit.transmissionCount + 1) % 256 % faces.length)]? =
          some pick ∧
        RNode.registerInterest self name [] cbp replyTo now deadline nonce dnl faces =
          some (self2, dnl2, [pick]) ∧
        (if cbp then self2.pitPrefixSlot else self2.pitNormal).latestTransmissionTime =
          now ∧
        (if cbp then self2.pitPrefixSlot else self2.pitNormal).transmissionCount =
          (pit.transmissionCount + 1) % 256) := by
  obtain ⟨pin, rdl, ltt, tc⟩ := pit
  simp only [RPit.mk.injEq] at hne hnoloop hnosat ⊢
  obtain ⟨e2, d2, l, f, hscan⟩ := scanPitIn_total name replyTo nonce now hh pin dnl
  have hspec := scanPitIn_spec name replyTo nonce now pin dnl e2 d2 l f hscan
  have hl : l = false := by
    cases l with
    | false => rfl
    | true =>
      obtain ⟨r, hr, hrn⟩ := hspec.1.mp rfl
      exact absurd hrn (hnoloop r hr)
  subst hl
  have hlen0 : ¬ (pin.length = 0) := by
    simpa [List.length_eq_zero] using hne
  have hflen0 : ¬ (faces.length = 0) := by
    simpa [List.length_eq_zero] using hfaces
  have hts : tsAdding ltt (8 * 2 ^ min tc 5) = ltt + 8 * 2 ^ min tc 5 := by
    simp only [tsAdding]
    omega
  refine ⟨?_, ?_⟩
  · intro hlt
    refine ⟨self.setPit cbp
      (RPit.mk (if f = true then e2 else e2 ++ [RPitIn.mk replyTo nonce])
        (max rdl deadline) ltt tc), d2, ?_⟩
    simp only [RNode.registerInterest, hpit, hlen0, hscan, hts, Bool.false_eq_true,
      if_false]
    rw [if_pos hlt]
  · intro hge
    have hmod : (tc + 1) % 256 % faces.length < faces.length :=
      Nat.mod_lt _ (by omega)
    have hidx : faces.length - 1 - ((tc + 1) % 256 % faces.length) < faces.length := by
      omega
    refine ⟨self.setPit cbp
      (RPit.mk (if f = true then e2 else e2 ++ [RPitIn.mk replyTo nonce])
        (max rdl deadline) now ((tc + 1) % 256)), d2,
      faces[faces.length - 1 - ((tc + 1) % 256 % faces.length)],
      List.getElem?_eq_getElem hidx, ?_, ?_, ?_⟩
    · simp only [RNode.registerInterest, hpit, hlen0, hscan, hts, Bool.false_eq_true,
        if_false, hflen0]
      rw [if_neg (show ¬ now < ltt + 8 * 2 ^ min tc 5 by omega),
        List.getElem?_eq_getElem hidx]
    · rw [RNode.setPit_sel]
    · rw [RNode.setPit_sel]

/-- Witness for C7: the suppressed branch at a concrete slot (latest
transmission 1000, count 1, now 1010 < 1016). -/
theorem c7_witness :
    ∃ self2 dnl2,
      RNode.registerInterest c7Node [cmpA] [] false 3 1010 9999 nB (DNL.mk [] 6000)
        [(0, 7), (0, 9)] = some (self2, dnl2, []) := by
  refine (c7_retransmission_suppression c7Node [cmpA] false 3 1010 9999 nB
    (DNL.mk [] 6000) [(0, 7), (0, 9)] (RPit.mk [RPitIn.mk 9 nA] 5000 1000 1)
    rfl (by decide) (by decide) (by decide) (by decide) (by decide)).1 (by decide)

/-- Updating a found child in place preserves the lookup index and yields
the updated child. -/
theorem findChildIdx_set (c : NameComponent) :
    ∀ (children : List (EncodedComponent × RNode)) (idx : Nat) (comp : EncodedComponent)
      (old child2 : RNode),
    findChildIdx children c = some idx → children[idx]? = some (comp, old) →
    findChildIdx (children.set idx (comp, child2)) c = some idx ∧
      (children.set idx (comp, child2))[idx]? = some (comp, child2) := by
  intro children
  induction children with
  | nil => intro idx comp old child2 h1 h2; simp [findChildIdx, findFirstIdx] at h1
  | cons x rest ih =>
    intro idx comp old child2 h1 h2
    rw [findChildIdx, findFirstIdx] at h1
    by_cases hx : compEqN x.1 c
    · rw [if_pos hx] at h1
      injection h1 with h1
      subst h1
      rw [List.getElem?_cons_zero] at h2
      injection h2 with h2
      subst h2
      refine ⟨?_, by simp⟩
      rw [List.set_cons_zero, findChildIdx, findFirstIdx, if_pos hx]
    · rw [if_neg hx] at h1
      cases hr : findFirstIdx (fun x => compEqN x.1 c) rest with
      | none => rw [hr] at h1; exact absurd h1 (by simp [Option.map_none'])
      | some j =>
        rw [hr] at h1
        simp only [Option.map_some'] at h1
        injection h1 with h1
        subst h1
        rw [List.getElem?_cons_succ] at h2
        obtain ⟨ih1, ih2⟩ := ih j comp old child2 (by rw [findChildIdx, hr]) h2
        refine ⟨?_, ?_⟩
        · rw [List.set_cons_succ, findChildIdx, findFirstIdx, if_neg hx]
          rw [findChildIdx] at ih1
          rw [ih1]
          rfl
        · rw [List.set_cons_succ, List.getElem?_cons_succ]
          exact ih2

/-- Inserting a component absent from the children makes it findable, with
the inserted node at the found index. -/
theorem findChildIdx_insertIdx (c : NameComponent) (child : RNode) :
    ∀ (children : List (EncodedComponent × RNode)) (pos : Nat),
    findChildIdx children c = none → pos ≤ children.length →
    ∃ j, findChildIdx (children.insertIdx pos
        (EncodedComponent.mk c.typ c.bytes, child)) c = some j ∧
      (children.insertIdx pos (EncodedComponent.mk c.typ c.bytes, child))[j]? =
        some (EncodedComponent.mk c.typ c.bytes, child) := by
  have hceq : compEqN (EncodedComponent.mk c.typ c.bytes) c = true := by
    simp [compEqN]
  intro children
  induction children with
  | nil =>
    intro pos h1 h2
    have hp : pos = 0 := by simpa using h2
    subst hp
    refine ⟨0, ?_, ?_⟩
    · rw [List.insertIdx_zero, findChildIdx, findFirstIdx, if_pos hceq]
    · rw [List.insertIdx_zero]; rfl
  | cons x rest ih =>
    intro pos h1 h2
    have hx : ¬ (compEqN x.1 c = true) := by
      intro hx
      rw [findChildIdx, findFirstIdx, if_pos hx] at h1
      exact absurd h1 (by simp)
    have h1r : findChildIdx rest c = none := by
      rw [findChildIdx, findFirstIdx, if_neg hx] at h1
      rw [findChildIdx]
      cases hr : findFirstIdx (fun x => compEqN x.1 c) rest with
      | none => rfl
      | some j => rw [hr] at h1; exact absurd h1 (by simp [Option.map_some'])
    cases pos with
    | zero =>
      refine ⟨0, ?_, ?_⟩
      · rw [List.insertIdx_zero, findChildIdx, findFirstIdx, if_pos hceq]
      · rw [List.insertIdx_zero]; rfl
    | succ k =>
      obtain ⟨j, hj1, hj2⟩ := ih k h1r (by simpa using h2)
      refine ⟨j + 1, ?_, ?_⟩
      · rw [List.insertIdx_succ_cons, findChildIdx, findFirstIdx, if_neg hx]
        rw [findChildIdx] at hj1
        rw [hj1]
        rfl
      · rw [List.insertIdx_succ_cons, List.getElem?_cons_succ]
        exact hj2

/-- The children of setChildren. -/
theorem RNode.children_setChildren (self : RNode)
    (cs : List (EncodedComponent × RNode)) : (self.setChildren cs).children = cs := by
  cases self; rfl

/-- An admitted register_interest walk leaves a record carrying the
incoming nonce in the PIT slot reached by the remaining components. -/
theorem registerInterest_records_nonce :
    ∀ (remaining : List NameComponent) (self : RNode) (name : List NameComponent)
      (cbp : Bool) (replyTo now deadline : Nat) (nonce : Nonce4) (dnl : DNL)
      (faces : List (Nat × Nat)) (self2 : RNode) (dnl2 : DNL) (out : List (Nat × Nat)),
    RNode.registerInterest self name remaining cbp replyTo now deadline nonce dnl faces =
      some (self2, dnl2, out) → out ≠ [] →
    ∃ pit2, pitAtPath self2 remaining cbp = some pit2 ∧
      ∃ r ∈ pit2.pitIn, r.lastNonce = nonce := by
  intro remaining
  induction remaining with
  | nil =>
    intro self name cbp replyTo now deadline nonce dnl faces self2 dnl2 out h hout
    simp only [RNode.registerInterest] at h
    generalize hP : (if cbp = true then self.pitPrefixSlot else self.pitNormal) = P at h
    by_cases hlen : P.pitIn.length = 0
    · rw [if_pos hlen] at h
      cases hidx : faces[faces.length - 1]? with
      | none =>
        rw [hidx] at h
        exact absurd (show (none : Option (RNode × DNL × List (Nat × Nat))) =
          some (self2, dnl2, out) from h) (by simp)
      | some top =>
        rw [hidx] at h
        have h9 : some (self.setPit cbp (RPit.mk [RPitIn.mk replyTo nonce] deadline now 1),
            dnl, [top]) = some (self2, dnl2, out) := h
        simp only [Option.some.injEq, Prod.mk.injEq] at h9
        obtain ⟨hs, hd, ho⟩ := h9
        subst hs
        refine ⟨RPit.mk [RPitIn.mk replyTo nonce] deadline now 1, ?_, ?_⟩
        · rw [pitAtPath, RNode.setPit_sel]
        · exact ⟨RPitIn.mk replyTo nonce, by simp, rfl⟩
    · rw [if_neg hlen] at h
      cases hscan : scanPitIn P.pitIn name replyTo nonce now dnl with
      | none =>
        rw [hscan] at h
        exact absurd (show (none : Option (RNode × DNL × List (Nat × Nat))) =
          some (self2, dnl2, out) from h) (by simp)
      | some q =>
        obtain ⟨e2, d2, l, f⟩ := q
        rw [hscan] at h
        have hspec := scanPitIn_spec name replyTo nonce now P.pitIn dnl e2 d2 l f hscan
        have h9 : (if l = true then
            some (self.setPit cbp (RPit.mk
              (if f = true then e2 else e2 ++ [RPitIn.mk replyTo nonce])
              (max P.removalDeadline deadline) P.latestTransmissionTime
              P.transmissionCount), d2, [])
          else if now < tsAdding P.latestTransmissionTime
              (8 * 2 ^ min P.transmissionCount 5) then
            some (self.setPit cbp (RPit.mk
              (if f = true then e2 else e2 ++ [RPitIn.mk replyTo nonce])
              (max P.removalDeadline deadline) P.latestTransmissionTime
              P.transmissionCount), d2, [])
          else if faces.length = 0 then none
          else match faces[faces.length - 1 -
              ((P.transmissionCount + 1) % 256 % faces.length)]? with
            | none => none
            | some pick =>
              some (self.setPit cbp (RPit.mk
                (if f = true then e2 else e2 ++ [RPitIn.mk replyTo nonce])
                (max P.removalDeadline deadline) now ((P.transmissionCount + 1) % 256)),
                d2, [pick])) = some (self2, dnl2, out) := h
        clear h
        have hmem : ∃ r ∈ (if f = true then e2 else e2 ++ [RPitIn.mk replyTo nonce]),
            r.lastNonce = nonce := by
          by_cases hf : f = true
          · obtain ⟨r, hr, hra, hrn⟩ := hspec.2 hf
            rw [if_pos hf]
            exact ⟨r, hr, hrn⟩
          · rw [if_neg hf]
            exact ⟨RPitIn.mk replyTo nonce, by simp, rfl⟩
        by_cases hl : l = true
        · rw [if_pos hl] at h9
          have h8 := h9
          simp only [Option.some.injEq, Prod.mk.injEq] at h8
          exact absurd h8.2.2.symm hout
        · rw [if_neg hl] at h9
          by_cases hcmp : now < tsAdding P.latestTransmissionTime
              (8 * 2 ^ min P.transmissionCount 5)
          · rw [if_pos hcmp] at h9
            have h8 := h9
            simp only [Option.some.injEq, Prod.mk.injEq] at h8
            exact absurd h8.2.2.symm hout
          · rw [if_neg hcmp] at h9
            by_cases hflen : faces.length = 0
            · rw [if_pos hflen] at h9
              exact absurd h9 (by simp)
            · rw [if_neg hflen] at h9
              cases hpick : faces[faces.length - 1 -
                  ((P.transmissionCount + 1) % 256 % faces.length)]? with
              | none => rw [hpick] at h9; exact absurd h9 (by simp)
              | some pick =>
                rw [hpick] at h9
                simp only [Option.some.injEq, Prod.mk.injEq] at h9
                obtain ⟨hs, hd, ho⟩ := h9
                subst hs
                refine ⟨_, by rw [pitAtPath, RNode.setPit_sel], hmem⟩
  | cons c rest ih =>
    intro self name cbp replyTo now deadline nonce dnl faces self2 dnl2 out h hout
    simp only [RNode.registerInterest] at h
    cases hfind : findChildIdx self.children c with
    | some idx =>
      rw [hfind] at h
      simp only [] at h
      cases hget : self.children[idx]? with
      | none =>
        rw [hget] at h
        exact absurd (show (none : Option (RNode × DNL × List (Nat × Nat))) =
          some (self2, dnl2, out) from h) (by simp)
      | some p =>
        obtain ⟨comp, child⟩ := p
        rw [hget] at h
        simp only [] at h
        cases hrec : child.registerInterest name rest cbp replyTo now deadline nonce dnl
            (faces ++ self.fib.reverse.map (fun x => (x.cost, x.nextHop))) with
        | none =>
          rw [hrec] at h
          exact absurd (show (none : Option (RNode × DNL × List (Nat × Nat))) =
            some (self2, dnl2, out) from h) (by simp)
        | some q =>
          obtain ⟨child2, dnl9, faces3⟩ := q
          rw [hrec] at h
          have h9 : some (self.setChildren (self.children.set idx (comp, child2)), dnl9,
              faces3) = some (self2, dnl2, out) := h
          simp only [Option.some.injEq, Prod.mk.injEq] at h9
          obtain ⟨hs, hd, ho⟩ := h9
          subst hs
          subst ho
          obtain ⟨pit2, hpath, hrec2⟩ := ih child name cbp replyTo now deadline nonce dnl
            _ child2 dnl9 faces3 hrec hout
          refine ⟨pit2, ?_, hrec2⟩
          obtain ⟨hf2, hg2⟩ := findChildIdx_set c self.children idx comp child child2
            hfind hget
          rw [pitAtPath, RNode.children_setChildren]
          simp only [hf2, hg2]
          exact hpath
    | none =>
      rw [hfind] at h
      simp only [] at h
      by_cases hflen : (faces ++ self.fib.reverse.map
          (fun x => (x.cost, x.nextHop))).length = 0
      · rw [if_pos hflen] at h
        have h9 : some (self, dnl,
            faces ++ self.fib.reverse.map (fun x => (x.cost, x.nextHop))) =
            some (self2, dnl2, out) := h
        simp only [Option.some.injEq, Prod.mk.injEq] at h9
        obtain ⟨hs, hd, ho⟩ := h9
        rw [← ho] at hout
        rw [List.length_eq_zero] at hflen
        exact absurd hflen hout
      · rw [if_neg hflen] at h
        cases hrec : RNode.new.registerInterest name rest cbp replyTo now deadline nonce
            dnl (faces ++ self.fib.reverse.map (fun x => (x.cost, x.nextHop))) with
        | none =>
          rw [hrec] at h
          exact absurd (show (none : Option (RNode × DNL × List (Nat × Nat))) =
            some (self2, dnl2, out) from h) (by simp)
        | some q =>
          obtain ⟨child2, dnl9, faces3⟩ := q
          rw [hrec] at h
          have h9 : some (self.setChildren (self.children.insertIdx
              (insertPos self.children c)
              (EncodedComponent.mk c.typ c.bytes, child2)), dnl9, faces3) =
              some (self2, dnl2, out) := h
          simp only [Option.some.injEq, Prod.mk.injEq] at h9
          obtain ⟨hs, hd, ho⟩ := h9
          subst hs
          subst ho
          obtain ⟨pit2, hpath, hrec2⟩ := ih RNode.new name cbp replyTo now deadline nonce
            dnl _ child2 dnl9 faces3 hrec hout
          refine ⟨pit2, ?_, hrec2⟩
          obtain ⟨j, hf2, hg2⟩ := findChildIdx_insertIdx c child2 self.children
            (insertPos self.children c) hfind (List.countP_le_length _)
          rw [pitAtPath, RNode.children_setChildren]
          simp only [hf2, hg2]
          exact hpath

/-- A walk whose terminal PIT slot already holds a record with the incoming
nonce returns no faces (the nonce-loop branch), for every origin face,
time, deadline, dead nonce list and accumulated candidates. -/
theorem registerInterest_nonce_loop_empty :
    ∀ (remaining : List NameComponent) (self : RNode) (name : List NameComponent)
      (cbp : Bool) (replyTo now deadline : Nat) (nonce : Nonce4) (dnl : DNL)
      (faces : List (Nat × Nat)) (pit : RPit),
    pitAtPath self remaining cbp = some pit →
    (∃ r ∈ pit.pitIn, r.lastNonce = nonce) →
    (hashNameAndNonce name nonce).isSome →
    ∃ self2 dnl2,
      RNode.registerInterest self name remaining cbp replyTo now deadline nonce dnl faces =
        some (self2, dnl2, []) := by
  intro remaining
  induction remaining with
  | nil =>
    intro self name cbp replyTo now deadline nonce dnl faces pit hpath hrec hh
    rw [pitAtPath] at hpath
    injection hpath with hpath
    obtain ⟨r, hr, hrn⟩ := hrec
    have hlen : ¬ ((if cbp = true then self.pitPrefixSlot else self.pitNormal).pitIn.length
        = 0) := by
      rw [hpath]
      intro hq
      rw [List.length_eq_zero] at hq
      rw [hq] at hr
      exact absurd hr (by simp)
    obtain ⟨e2, d2, l, f, hscan⟩ := scanPitIn_total name replyTo nonce now hh
      (if cbp = true then self.pitPrefixSlot else self.pitNormal).pitIn dnl
    have hspec := scanPitIn_spec name replyTo nonce now _ dnl e2 d2 l f hscan
    have hl : l = true := hspec.1.mpr ⟨r, by rw [hpath]; exact hr, hrn⟩
    subst hl
    refine ⟨self.setPit cbp (RPit.mk
        (if f = true then e2 else e2 ++ [RPitIn.mk replyTo nonce])
        (max (if cbp = true then self.pitPrefixSlot else self.pitNormal).removalDeadline
          deadline)
        (if cbp = true then self.pitPrefixSlot else self.pitNormal).latestTransmissionTime
        (if cbp = true then self.pitPrefixSlot else self.pitNormal).transmissionCount),
      d2, ?_⟩
    simp only [RNode.registerInterest, hlen, if_false, hscan]
    simp
  | cons c rest ih =>
    intro self name cbp replyTo now deadline nonce dnl faces pit hpath hrec hh
    rw [pitAtPath] at hpath
    cases hfind : findChildIdx self.children c with
    | none => rw [hfind] at hpath; exact absurd hpath (by simp)
    | some idx =>
      rw [hfind] at hpath
      simp only [] at hpath
      cases hget : self.children[idx]? with
      | none => rw [hget] at hpath; exact absurd hpath (by simp)
      | some p =>
        obtain ⟨comp, child⟩ := p
        rw [hget] at hpath
        simp only [] at hpath
        obtain ⟨child2, dnl9, hrec2⟩ := ih child name cbp replyTo now deadline nonce dnl
          (faces ++ self.fib.reverse.map (fun x => (x.cost, x.nextHop))) pit hpath hrec hh
        refine ⟨self.setChildren (self.children.set idx (comp, child2)), dnl9, ?_⟩
        simp only [RNode.registerInterest, hfind, hget, hrec2]

/-- C4 amended: after register_interest(n, f, nonce) has admitted an
interest, every subsequent register_interest with the same name, the same
nonce and the same can-be-prefix flag returns an empty next-hop set, for
every origin face, lifetime and time. -/
theorem c4_amended_same_flag_suppressed
    (t : RTables) (name : List NameComponent) (cbp : Bool)
    (lt1 : Option Nat) (nonce : Nonce4) (f1 now1 : Nat) (t1 : RTables)
    (out1 : List Nat)
    (h1 : t.registerInterestTop name cbp lt1 nonce f1 now1 = some (t1, out1))
    (hout : out1 ≠ []) (f2 now2 : Nat) (lt2 : Option Nat) :
    ∃ t2, t1.registerInterestTop name cbp lt2 nonce f2 now2 = some (t2, []) := by
  rw [RTables.registerInterestTop.eq_def] at h1
  split at h1
  · simp only [Option.some.injEq, Prod.mk.injEq] at h1
    exact absurd h1.2.symm hout
  · rename_i hname
    cases hc : t.dnl.contains name nonce with
    | none => rw [hc] at h1; exact absurd h1 (by simp)
    | some b =>
      rw [hc] at h1
      have hh : (hashNameAndNonce name nonce).isSome := by
        rw [DNL.contains] at hc
        cases hq : hashNameAndNonce name nonce with
        | none => rw [hq] at hc; exact absurd hc (by simp)
        | some v => rfl
      cases b with
      | true =>
        simp only [Option.some.injEq, Prod.mk.injEq] at h1
        exact absurd h1.2.symm hout
      | false =>
        simp only [] at h1
        generalize hdl : (match lt1 with
            | some ms => tsAdding now1 ms
            | none => tsAdding now1 4000) = deadline1 at h1
        cases hw : t.root.registerInterest name name cbp f1 now1 deadline1
            nonce t.dnl [] with
        | none => rw [hw] at h1; exact absurd h1 (by simp)
        | some q =>
          obtain ⟨root2, dnl2, faces⟩ := q
          rw [hw] at h1
          simp only [Option.some.injEq, Prod.mk.injEq] at h1
          obtain ⟨ht1, hout1⟩ := h1
          have hfaces : faces ≠ [] := by
            intro hq
            rw [hq] at hout1
            exact hout (by rw [← hout1]; rfl)
          obtain ⟨pit2, hpath, hrec⟩ := registerInterest_records_nonce name t.root name
            cbp f1 now1 _ nonce t.dnl [] root2 dnl2 faces hw hfaces
          obtain ⟨hv, hhv⟩ := Option.isSome_iff_exists.mp hh
          have hroot : t1.root = root2 := by rw [← ht1]
          have hdnl : t1.dnl = dnl2 := by rw [← ht1]
          rw [RTables.registerInterestTop.eq_def]
          rw [if_neg hname]
          have hc2 : t1.dnl.contains name nonce = some (t1.dnl.containsHash hv) := by
            rw [DNL.contains, hhv]
            rfl
          rw [hc2]
          cases hb2 : t1.dnl.containsHash hv with
          | true => exact ⟨t1, rfl⟩
          | false =>
            obtain ⟨root3, dnl3, hrun⟩ := registerInterest_nonce_loop_empty name root2
              name cbp f2 now2
              (match lt2 with
                | some ms => tsAdding now2 ms
                | none => tsAdding now2 4000) nonce t1.dnl [] pit2 hpath hrec hh
            simp only []
            rw [hroot, hrun]
            exact ⟨_, rfl⟩

/-- Witness for the amended C4: the concrete admitted first call followed
by a second call with the same exact-match flag from another face. -/
theorem c4_amended_witness :
    ∃ t2, cTables1.registerInterestTop [cmpA, cmpB] false none nA 3 101 = some (t2, []) := by
  refine c4_amended_same_flag_suppressed cTables0 [cmpA, cmpB] false none nA 1 100
    cTables1 [2] ?_ (by simp) 3 101 none
  rfl

/-- C4 counterexample: the first register_interest(/A/B, exact-match,
nonce nA, face 1) is admitted (next hop face 2); a subsequent
register_interest with the same name and the same nonce but with
can_be_prefix = true, from face 3, again returns the non-empty next-hop
set [2], because the two flag values use distinct PIT slots. This refutes
the claim for differing can-be-prefix flags. -/
theorem c4_counterexample :
    cFirstCall.map (fun r => r.2) = some [2] ∧
    (cTables1.registerInterestTop [cmpA, cmpB] true none nA 3 101).map (fun r => r.2) =
      some [2] := by
  refine ⟨rfl, rfl⟩

/-- C1 (codec round-trip): the well-formed Interest packet [5,5,7,3,8,1,65]
(outer type 5, outer length 5, name /"A") decodes, but re-encoding the view
emits [5,7,7,3,8,1,65]: Interest::encode takes len = self.encoded_length(),
the full length with the outer type and length overhead included, and
writes it into the outer length field, so the round-trip changes the packet
and the outer length field is not preserved. -/
theorem c1_interest_reencode_changes_outer_length :
    tlvTryDecode c1Bytes = .ok (TLVv.mk 5 [7, 3, 8, 1, 65], 7) ∧
    (Interest.tryDecode [7, 3, 8, 1, 65]).map Interest.encode
      = some (some [5, 7, 7, 3, 8, 1, 65]) ∧
    [5, 7, 7, 3, 8, 1, 65] ≠ c1Bytes := by
  exact ⟨rfl, rfl, by decide⟩

/-- Tables::register_interest on a non-empty name always increments the
event counter, whatever else it does: every successful return is built from
the state with events_sice_last_update + 1. -/
theorem registerInterest_events (t : FTables) (comps : List NameComponent)
    (cbpFlag : Bool) (replyTo now retrans deadline : Nat) (nonce : Option Nonce4)
    (t1 : FTables) (r : FRegResult) (hc : comps ≠ [])
    (h : t.registerInterest comps cbpFlag replyTo now retrans deadline nonce
      = some (t1, r)) :
    t1.eventsSinceLastUpdate = t.eventsSinceLastUpdate + 1 := by
  unfold FTables.registerInterest at h
  rw [if_neg (fun hq => hc (List.length_eq_zero.mp hq))] at h
  simp only [] at h
  repeat' split at h
  all_goals
    first
      | exact Option.noConfusion h
      | (injection h with h1
         injection h1 with h2 h3
         rw [← h2])

/-- Driving the prefix-entry iterator from depth zero never terminates:
the depth-zero branch of EntryIterator::next yields the root marker without
advancing the depth, so the collection loop only ever consumes fuel. -/
theorem hopsCollect_depthZero (entries : List FTableEntry) :
    ∀ (fuel : Nat) (s : EntryIterState) (m : List (Nat × Nat)), s.depth = 0 →
      hopsCollect entries fuel s m = none := by
  intro fuel
  induction fuel with
  | zero => intro s m _; rfl
  | succ n ih =>
    intro s m hdepth
    rw [hopsCollect, entryIterNext, if_pos hdepth]
    cases hq : entries[0]? with
    | none => rfl
    | some root =>
      simp only []
      exact ih _ m hdepth

/-- Tables::hops_for_name never returns: the prefix-entry iterator repeats
the root marker forever. -/
theorem hopsForName_none (t : FTables) (comps : List NameComponent) :
    t.hopsForName comps = none := by
  unfold FTables.hopsForName
  rw [hopsCollect_depthZero t.entries _ _ _ rfl]
  rfl

/-- The forwarding stage of handle_interest never returns: whatever the
re-encoding of the nonce-assigned Interest yields, the next-hop loop runs
hops_for_name, which never terminates. -/
theorem forwardStageStuck (t1 : FTables) (i : Interest) (origin : Nat)
    (t2 : FTables) (sends : List (Nat × List Nat))
    (h : (match ({ i with nonce := some t1.nextNonceStep.2, hopLimit := none }
            : Interest).encode with
      | none => none
      | some e =>
        match t1.nextNonceStep.1.hopsForName i.name.componentsList with
        | none => none
        | some hops => some (t1.nextNonceStep.1,
            (hops.filter (fun f => f ≠ origin)).map (fun f => (f, e))))
        = some (t2, sends)) : False := by
  cases henc : ({ i with nonce := some t1.nextNonceStep.2, hopLimit := none }
      : Interest).encode with
  | none => rw [henc] at h; exact Option.noConfusion h
  | some e =>
    rw [henc] at h
    have h3 : (match t1.nextNonceStep.1.hopsForName i.name.componentsList with
      | none => (none : Option (FTables × List (Nat × List Nat)))
      | some hops => some (t1.nextNonceStep.1,
          (hops.filter (fun f => f ≠ origin)).map (fun f => (f, e))))
        = some (t2, sends) := h
    rw [hopsForName_none] at h3
    exact Option.noConfusion h3

/-- C5 amended: handle_interest does not validate nonce presence and does
not drop a nonce-less Interest. For every table state, origin, time and
content store, a nonce-less Interest with a non-empty name and no hop
limit that returns at all was registered in the PIT (the tables' event
counter has incremented), and its only possible sends answer a
content-store hit back to the origin face; the forwarding stage, which
would attach a locally generated nonce, never returns because
hops_for_name's iterator never terminates. -/
theorem c5_amended_nonceless_registered
    (csGet : NameInner → Bool → Option Nat → Option (Option (List Nat)))
    (t : FTables) (i : Interest) (pkt : List Nat) (origin now : Nat)
    (t2 : FTables) (sends : List (Nat × List Nat))
    (hn : i.nonce = none) (hhop : i.hopLimit = none)
    (hcc : i.name.componentCount ≠ 0) (hcl : i.name.componentsList ≠ [])
    (h : handleInterest csGet t i pkt origin now = some (t2, sends)) :
    t2.eventsSinceLastUpdate = t.eventsSinceLastUpdate + 1 ∧
    (sends = [] ∨
      ∃ got, csGet i.name i.canBePrefix (if i.mustBeFresh then some now else none)
          = some (some got) ∧ sends = [(origin, got)]) := by
  unfold handleInterest at h
  rw [if_neg hcc, hhop] at h
  simp only [Option.map_none', Option.isSome_none] at h
  rw [hn] at h
  simp only [Bool.false_eq_true, if_false] at h
  cases hreg : t.registerInterest i.name.componentsList i.canBePrefix origin now 1000
      (match i.interestLifetime with
        | some ms => tsAdding now ms
        | none => tsAdding now 4000) none with
  | none => rw [hreg] at h; exact absurd h (by simp)
  | some p =>
    obtain ⟨t1, r⟩ := p
    rw [hreg] at h
    have hev := registerInterest_events t _ _ origin now 1000 _ none t1 r hcl hreg
    cases r with
    | newRegistration =>
      cases hcs : csGet i.name i.canBePrefix (if i.mustBeFresh then some now else none) with
      | none =>
        rw [hcs] at h
        exact absurd h (fun h => forwardStageStuck t1 i origin t2 sends h)
      | some og =>
        cases og with
        | none =>
          rw [hcs] at h
          exact absurd h (fun h => forwardStageStuck t1 i origin t2 sends h)
        | some got =>
          rw [hcs] at h
          have h2 : (some (t1, [(origin, got)])
              : Option (FTables × List (Nat × List Nat))) = some (t2, sends) := h
          injection h2 with h3
          injection h3 with h4 h5
          exact ⟨h4 ▸ hev, Or.inr ⟨got, rfl, h5.symm⟩⟩
    | previousFromSelf =>
      cases hcs : csGet i.name i.canBePrefix (if i.mustBeFresh then some now else none) with
      | none =>
        rw [hcs] at h
        exact absurd h (fun h => forwardStageStuck t1 i origin t2 sends h)
      | some og =>
        cases og with
        | none =>
          rw [hcs] at h
          exact absurd h (fun h => forwardStageStuck t1 i origin t2 sends h)
        | some got =>
          rw [hcs] at h
          have h2 : (some (t1, [(origin, got)])
              : Option (FTables × List (Nat × List Nat))) = some (t2, sends) := h
          injection h2 with h3
          injection h3 with h4 h5
          exact ⟨h4 ▸ hev, Or.inr ⟨got, rfl, h5.symm⟩⟩
    | previousFromOthers sr =>
      cases sr with
      | false =>
        have h2 : (some (t1, ([] : List (Nat × List Nat)))
            : Option (FTables × List (Nat × List Nat))) = some (t2, sends) := h
        injection h2 with h3
        injection h3 with h4 h5
        exact ⟨h4 ▸ hev, Or.inl h5.symm⟩
      | true =>
        cases hcs : csGet i.name i.canBePrefix (if i.mustBeFresh then some now else none) with
        | none =>
          rw [hcs] at h
          exact absurd h (fun h => forwardStageStuck t1 i origin t2 sends h)
        | some og =>
          cases og with
          | none =>
            rw [hcs] at h
            exact absurd h (fun h => forwardStageStuck t1 i origin t2 sends h)
          | some got =>
            rw [hcs] at h
            have h2 : (some (t1, [(origin, got)])
                : Option (FTables × List (Nat × List Nat))) = some (t2, sends) := h
            injection h2 with h3
            injection h3 with h4 h5
            exact ⟨h4 ▸ hev, Or.inr ⟨got, rfl, h5.symm⟩⟩
    | deadNonce =>
      have h2 : (some (t1, ([] : List (Nat × List Nat)))
          : Option (FTables × List (Nat × List Nat))) = some (t2, sends) := h
      injection h2 with h3
      injection h3 with h4 h5
      exact ⟨h4 ▸ hev, Or.inl h5.symm⟩
    | invalidName =>
      have h2 : (some (t1, ([] : List (Nat × List Nat)))
          : Option (FTables × List (Nat × List Nat))) = some (t2, sends) := h
      injection h2 with h3
      injection h3 with h4 h5
      exact ⟨h4 ▸ hev, Or.inl h5.symm⟩

/-- Witness for the amended C5: the concrete nonce-less Interest /A into
fresh tables with a content-store hit. -/
theorem c5_amended_witness :
    ∃ t2 sends, handleInterest (fun _ _ _ => some (some c5Data)) FTables.new
        c5Interest c5Bytes 1 100 = some (t2, sends) ∧
      t2.eventsSinceLastUpdate = FTables.new.eventsSinceLastUpdate + 1 := by
  refine ⟨((handleInterest (fun _ _ _ => some (some c5Data)) FTables.new c5Interest
      c5Bytes 1 100).getD (FTables.new, [])).1,
    ((handleInterest (fun _ _ _ => some (some c5Data)) FTables.new c5Interest
      c5Bytes 1 100).getD (FTables.new, [])).2, rfl, ?_⟩
  exact (c5_amended_nonceless_registered (fun _ _ _ => some (some c5Data))
    FTables.new c5Interest c5Bytes 1 100 _ _ rfl rfl (by decide) (by decide) rfl).1

/-- C5 counterexample: the nonce-less Interest /A arriving at fresh tables
from face 1 with a content-store hit is not dropped: it decodes to the
nonce-less view, handle_interest registers it in the PIT (the event counter
increments and the created entry holds a pit-in record for face 1) and
sends the cached packet out on face 1. -/
theorem c5_counterexample :
    Interest.tryDecode c5Inner = some c5Interest ∧
    (handleInterest (fun _ _ _ => some (some c5Data)) FTables.new c5Interest
        c5Bytes 1 100).map
      (fun r => (r.2, r.1.eventsSinceLastUpdate,
        (r.1.entries.getD 1 FTableEntry.default).pit.pitsLen,
        (r.1.entries.getD 1 FTableEntry.default).pit.replyTo.getD 0 0))
      = some ([(1, c5Data)], 1, 1, 1) := ⟨rfl, rfl⟩

/-- C6 (single-byte hop-limit rewrite on forwarding): the packet c6Bytes
decodes to an Interest with hop limit 2; with a FIB route /A to face 2 the
forwarder nevertheless never emits anything for it, because the forwarding
loop drives Tables::hops_for_name, whose prefix-entry iterator repeats the
root marker forever (modelled as none); and the bytes handle_interest would
send are the re-encoding of the whole modified Interest
(index_of_hop_byte_in_encoded_tlv is unimplemented), which is
[5,16,...,34,1,1] and differs from the received packet in the outer length
byte as well, not only in the hop-limit value byte as the spec requires. -/
theorem c6_forwarded_bytes_not_single_byte_rewrite :
    tlvTryDecode c6Bytes = .ok (TLVv.mk 5 c6Inner, 16) ∧
    Interest.tryDecode c6Inner = some c6Interest ∧
    c6Interest.hopLimit = some 2 ∧
    c6Tables.map (fun tb =>
        handleInterest (fun _ _ _ => some none) tb c6Interest c6Bytes 1 100)
      = some none ∧
    Interest.encode { c6Interest with hopLimit := some 1 }
      = some [5, 16, 7, 3, 8, 1, 65, 10, 4, 9, 9, 9, 9, 34, 1, 1] ∧
    [5, 16, 7, 3, 8, 1, 65, 10, 4, 9, 9, 9, 9, 34, 1, 1] ≠ List.set c6Bytes 15 1 := by
  exact ⟨rfl, rfl, rfl, rfl, rfl, by decide⟩

end Reto
